import Mathlib

/-!
# PowerHive — shallow embedding and verification of spec claims

This file embeds the core data model and operations of the PowerHive fleet
controller (Go) in Lean 4 and settles the frozen claims C1–C10 against it.

Modelling conventions:
* Go `float64` values are modelled as `ℚ` (exact arithmetic on the finite
  decimal values the program actually manipulates).
* Go `time.Time` instants are modelled as `Int` (Unix seconds).
* Go pointers / nullable columns become `Option`.
* Go maps become association lists with insert-or-replace update; Go map
  iteration order is unspecified, here it is list order.
* Fallible Go functions returning `(T, error)` become `Except String T`.
* SQL transactions (`BEGIN … COMMIT` with `defer Rollback`) become functions
  from a database value to `Except String` of the committed database value:
  an error result leaves the caller with the original database, which is
  exactly the rollback semantics.
-/

namespace PowerHive

/-! ## Go `strings` fragment (ASCII; preset values and settings are ASCII) -/

/-- Characters `strings.TrimSpace` removes (ASCII fragment of Unicode space). -/
def isGoSpace (c : Char) : Bool :=
  c = ' ' || c = '\t' || c = '\n' || c = '\x0b' || c = '\x0c' || c = '\r'

/-- Model of Go `strings.TrimSpace`. -/
def goTrimSpace (s : String) : String :=
  ⟨((s.data.dropWhile isGoSpace).reverse.dropWhile isGoSpace).reverse⟩

/-- Model of Go `strings.ToLower` (ASCII fragment). -/
def goToLowerChar (c : Char) : Char :=
  if 'A' ≤ c && c ≤ 'Z' then Char.ofNat (c.toNat + 32) else c

/-- Model of Go `strings.ToLower` on a string. -/
def goToLower (s : String) : String := ⟨s.data.map goToLowerChar⟩

/-- Model of Go `strings.TrimSuffix s suffix`: removes at most one trailing copy. -/
def goTrimSuffix (s suffix : String) : String :=
  if s.data.reverse.take suffix.data.length = suffix.data.reverse then
    ⟨s.data.take (s.data.length - suffix.data.length)⟩
  else s

/-! ## Numeric parsing

`goParseFloat` models the decimal grammar of Go `strconv.ParseFloat`:
optional sign, decimal digits with an optional single dot (at least one digit
overall), and an optional decimal exponent.  Hexadecimal floats, infinities
and NaN are outside this model, whose codomain `ℚ` represents the finite
values the program manipulates exactly. -/

/-- Decimal digit test (`'0' <= c && c <= '9'` in Go, here enumerated over
the ten ASCII digits to keep case analysis tractable). -/
def isDigitChar (c : Char) : Bool :=
  decide (c = '0' ∨ c = '1' ∨ c = '2' ∨ c = '3' ∨ c = '4' ∨ c = '5' ∨ c = '6' ∨
    c = '7' ∨ c = '8' ∨ c = '9')

/-- Value of a decimal digit character (Go `c - '0'` on digits). -/
def digitVal (c : Char) : ℕ :=
  if c = '1' then 1 else if c = '2' then 2 else if c = '3' then 3
  else if c = '4' then 4 else if c = '5' then 5 else if c = '6' then 6
  else if c = '7' then 7 else if c = '8' then 8 else if c = '9' then 9 else 0

/-- Numeric value of a list of decimal digit characters. -/
def digitsToNat (l : List Char) : ℕ :=
  l.foldl (fun a c => a * 10 + digitVal c) 0

/-- `10 ^ n` over `ℚ`, defined structurally so concrete inputs evaluate. -/
def qPow10 : ℕ → ℚ
  | 0 => 1
  | n + 1 => 10 * qPow10 n

/-- Scale a rational by `10 ^ e` for a signed decimal exponent. -/
def applyExp10 (q : ℚ) (e : ℤ) : ℚ :=
  if 0 ≤ e then q * qPow10 e.toNat else q / qPow10 (-e).toNat

/-- Exponent marker test for the decimal grammar. -/
def isExpChar (c : Char) : Bool := c = 'e' || c = 'E'

/-- Not an exponent marker (the mantissa/exponent split predicate). -/
def notExpChar (c : Char) : Bool := !(isExpChar c)

/-- Strip one optional leading sign, returning the sign factor. -/
def splitSign (cs : List Char) : ℚ × List Char :=
  match cs with
  | [] => (1, [])
  | c :: r => if c = '+' then (1, r) else if c = '-' then (-1, r) else (1, c :: r)

/-- Strip one optional exponent sign, returning the sign factor. -/
def splitExpSign (cs : List Char) : ℤ × List Char :=
  match cs with
  | [] => (1, [])
  | c :: r => if c = '+' then (1, r) else if c = '-' then (-1, r) else (1, c :: r)

/-- Model of Go `strconv.ParseFloat` (decimal grammar), exact over `ℚ`. -/
def goParseFloat (s : String) : Option ℚ :=
  let signed := splitSign s.data
  let sign := signed.1
  let cs := signed.2
  let mant := cs.takeWhile notExpChar
  let rest := cs.dropWhile notExpChar
  let expVal : Option ℤ :=
    match rest with
    | [] => some 0
    | _ :: r =>
      let esigned := splitExpSign r
      if esigned.2 ≠ [] ∧ esigned.2.all isDigitChar then
        some (esigned.1 * digitsToNat esigned.2)
      else none
  match expVal with
  | none => none
  | some e =>
    let ip := mant.takeWhile isDigitChar
    let r2 := mant.drop ip.length
    let frac : Option (List Char) :=
      match r2 with
      | [] => some []
      | c :: r3 =>
        if c = '.' then (if r3.all isDigitChar then some r3 else none) else none
    match frac with
    | none => none
    | some f =>
      if ip.length + f.length = 0 then none
      else some (applyExp10 (sign * ((digitsToNat ip : ℚ) + (digitsToNat f : ℚ) / qPow10 f.length)) e)

/-! ## Balancer: preset wattage parsing (power_balancer.go, parsePresetWattage) -/

/-- Embedding of `parsePresetWattage` from `internal/app/power_balancer.go`:
trim and lowercase, reject empty and "disabled", strip one trailing "w",
parse, reject non-positive values. -/
def parsePresetWattage (preset : String) : Except String ℚ :=
  let p := goToLower (goTrimSpace preset)
  if p = "" then .error "empty preset value"
  else if p = "disabled" then .error "preset is disabled, skipping"
  else
    let q := goTrimSuffix p "w"
    match goParseFloat q with
    | none => .error "failed to parse wattage from preset"
    | some watts =>
      if watts ≤ 0 then .error "invalid wattage value (must be positive)"
      else .ok watts

example : parsePresetWattage "1300W" = .ok 1300 := by
  norm_num +decide [parsePresetWattage, goToLower, goToLowerChar, goTrimSpace, isGoSpace,
    goTrimSuffix, goParseFloat, splitSign, splitExpSign, isExpChar, notExpChar, digitsToNat,
    digitVal, qPow10, applyExp10, List.dropWhile, List.takeWhile, isDigitChar, String.ext_iff]

example : parsePresetWattage "disabled" = .error "preset is disabled, skipping" := by
  norm_num +decide [parsePresetWattage, goToLower, goToLowerChar, goTrimSpace, isGoSpace,
    String.ext_iff]

example : goParseFloat "12.5e-1" = some (mkRat 5 4) := by
  norm_num +decide [goParseFloat, splitSign, splitExpSign, isExpChar, notExpChar,
    digitsToNat, digitVal, qPow10, applyExp10, List.dropWhile, List.takeWhile, isDigitChar]

/-! ## Association lists (Go maps)

Go maps become association lists with insert-or-replace assignment and
first-match lookup; iteration order is list order. -/

/-- Lookup in an association list (Go `m[k]`, with the ok flag as `Option`). -/
def alistLookup {α : Type} (m : List (String × α)) (k : String) : Option α :=
  (m.find? (fun p => p.1 = k)).map (fun p => p.2)

/-- Insert-or-replace (Go `m[k] = v`). -/
def alistInsert {α : Type} (m : List (String × α)) (k : String) (v : α) : List (String × α) :=
  if m.any (fun p => p.1 = k) then
    m.map (fun p => if p.1 = k then (k, v) else p)
  else m ++ [(k, v)]

/-! ## Data model (internal/database/models.go types, balancer view)

`Model.presets` is the ordered preset value list loaded from `model_presets`
(`loadPresetsTx`); `ModelPreset` is the full row as returned by
`GetAllModelPresets`. -/

/-- A `model_presets` row as seen by `GetAllModelPresets`. -/
structure ModelPreset where
  value : String
  expectedPowerW : Option ℚ
  expectedHashrateTH : Option ℚ
deriving DecidableEq

/-- `database.Model` as embedded in a `Miner` (id and timestamps omitted).
`aliasKey` models the `Alias` field, `alias` being reserved in Lean. -/
structure Model where
  name : String
  aliasKey : String
  presets : List String
  maxPreset : Option String
deriving DecidableEq

/-- `database.Status` fields the balancer reads. -/
structure Status where
  preset : Option String
  hashrate : Option ℚ
  powerConsumption : Option ℚ
deriving DecidableEq

/-- `database.Miner` fields the balancer reads. -/
structure Miner where
  id : String
  ip : Option String
  apiKey : Option String
  managed : Bool
  model : Option Model
  latestStatus : Option Status
deriving DecidableEq

/-- `database.PlantReading` fields the balancer reads (kW). -/
structure PlantReading where
  totalGeneration : ℚ
  availablePower : ℚ
deriving DecidableEq

/-- `database.PowerBalanceEventInput` as recorded by `applyPresetChange`. -/
structure PowerBalanceEventInput where
  minerId : String
  oldPreset : Option String
  newPreset : Option String
  oldPower : Option ℚ
  newPower : Option ℚ
  reason : String
  totalConsumptionBefore : Option ℚ
  totalConsumptionAfter : Option ℚ
  availablePower : Option ℚ
  targetPower : Option ℚ
  success : Bool
  errorMessage : Option String
  recordedAt : ℤ
deriving DecidableEq

/-! ## Balancer helpers (internal/app/power_balancer.go) -/

/-- Embedding of `filterEligibleMiners`: managed, online, keyed, modelled. -/
def filterEligibleMiners (miners : List Miner) : List Miner :=
  miners.filter (fun m =>
    m.managed && decide (m.ip ≠ none ∧ m.ip ≠ some "") &&
      decide (m.apiKey ≠ none ∧ m.apiKey ≠ some "") && decide (m.model ≠ none))

/-- Embedding of `filterOnlineMiners`: online and modelled (managed or not). -/
def filterOnlineMiners (miners : List Miner) : List Miner :=
  miners.filter (fun m =>
    decide (m.ip ≠ none ∧ m.ip ≠ some "") && decide (m.model ≠ none))

/-- One model's preset-to-wattage map (`map[string]float64` in Go). -/
abbrev PowerMap := List (String × ℚ)

/-- The per-model-alias preset power map (`map[string]map[string]float64`). -/
abbrev PresetPowerMap := List (String × PowerMap)

/-- The rows of one model, keyed by value, restricted to rows with
`expected_power_w` set (first loop of `loadPresetPowerMap`). -/
def powerMapFromRows (rows : List ModelPreset) : PowerMap :=
  rows.foldl (fun acc p =>
    match p.expectedPowerW with
    | some w => alistInsert acc p.value w
    | none => acc) []

/-- Fallback of `loadPresetPowerMap`: parse wattages from the preset values of
the first miner whose model has the given alias. -/
def powerMapFromValues (values : List String) : PowerMap :=
  values.foldl (fun acc v =>
    match parsePresetWattage v with
    | .ok w => alistInsert acc v w
    | .error _ => acc) []

/-- Embedding of `loadPresetPowerMap`: for each model alias in
`allPresets` (the result of `GetAllModelPresets`), build the wattage map from
rows with `expected_power_w`; if that is empty, parse the preset values of the
first listed miner with that model; drop aliases with no power data. -/
def loadPresetPowerMap (allPresets : List (String × List ModelPreset))
    (miners : List Miner) : PresetPowerMap :=
  allPresets.foldl (fun acc p =>
    let powerMap := powerMapFromRows p.2
    let powerMap :=
      if powerMap.isEmpty then
        match miners.find? (fun m =>
            match m.model with
            | some mv => mv.aliasKey = p.1
            | none => false) with
        | some m =>
          match m.model with
          | some mv => powerMapFromValues mv.presets
          | none => []
        | none => []
      else powerMap
    if powerMap.isEmpty then acc else alistInsert acc p.1 powerMap) []

/-- Power attributed to one miner by `calculateCurrentConsumption`: wattage of
the current preset from the power map, else `latest_status.power_consumption`,
else nothing (contributes zero). -/
def minerConsumption (ppm : PresetPowerMap) (m : Miner) : Option ℚ :=
  match m.model with
  | none => none
  | some mv =>
    let fromPreset : Option ℚ :=
      match m.latestStatus with
      | some st =>
        match st.preset with
        | some p =>
          match alistLookup ppm mv.aliasKey with
          | some pm => alistLookup pm p
          | none => none
        | none => none
      | none => none
    match fromPreset with
    | some w => some w
    | none =>
      match m.latestStatus with
      | some st => st.powerConsumption
      | none => none

/-- Embedding of `calculateCurrentConsumption`: sum of `minerConsumption`
over the given (online) miners; miners with no data contribute zero. -/
def calculateCurrentConsumption (miners : List Miner) (ppm : PresetPowerMap) : ℚ :=
  miners.foldl (fun total m =>
    match minerConsumption ppm m with
    | some w => total + w
    | none => total) 0

/-! ## Balancer: efficiency ranking -/

/-- `minerEfficiency` record built by `calculateEfficiencies`. -/
structure MinerEfficiency where
  miner : Miner
  efficiency : ℚ
  currentPreset : Option String
  currentPower : Option ℚ
deriving DecidableEq

/-- One step of `calculateEfficiencies`: skip miners without status, model or
power data; zero (or missing) hashrate gets efficiency `1e9` (worst). -/
def minerEfficiencyOf (ppm : PresetPowerMap) (m : Miner) : Option MinerEfficiency :=
  match m.latestStatus, m.model with
  | some st, some mv =>
    let fromPreset : Option ℚ :=
      match st.preset with
      | some p =>
        match alistLookup ppm mv.aliasKey with
        | some pm => alistLookup pm p
        | none => none
      | none => none
    let currentPower : Option ℚ :=
      match fromPreset with
      | some w => some w
      | none => st.powerConsumption
    match currentPower with
    | none => none
    | some cp =>
      let hashrateTH : ℚ :=
        match st.hashrate with
        | some h => h / 1000000000000
        | none => 0
      let efficiency : ℚ := if hashrateTH ≤ 0 then 1000000000 else cp / hashrateTH
      some { miner := m, efficiency := efficiency, currentPreset := st.preset,
             currentPower := some cp }
  | _, _ => none

/-- Embedding of `calculateEfficiencies` (order preserved). -/
def calculateEfficiencies (miners : List Miner) (ppm : PresetPowerMap) :
    List MinerEfficiency :=
  miners.filterMap (minerEfficiencyOf ppm)

/-- Ascending efficiency (increase pass sorts best first). -/
def effLE (a b : MinerEfficiency) : Prop := a.efficiency ≤ b.efficiency

/-- Descending efficiency (reduce pass sorts worst first). -/
def effGE (a b : MinerEfficiency) : Prop := b.efficiency ≤ a.efficiency

instance : DecidableRel effLE :=
  fun a b => inferInstanceAs (Decidable (a.efficiency ≤ b.efficiency))

instance : DecidableRel effGE :=
  fun a b => inferInstanceAs (Decidable (b.efficiency ≤ a.efficiency))

instance : IsTotal MinerEfficiency effLE :=
  ⟨fun a b => le_total a.efficiency b.efficiency⟩

instance : IsTotal MinerEfficiency effGE :=
  ⟨fun a b => le_total b.efficiency a.efficiency⟩

instance : IsTrans MinerEfficiency effLE :=
  ⟨fun _ _ _ hab hbc => le_trans hab hbc⟩

instance : IsTrans MinerEfficiency effGE :=
  ⟨fun _ _ _ hab hbc => le_trans hbc hab⟩

/-! ## Balancer: target preset selection (`determineTargetPreset`) -/

/-- A `(preset, power)` pair of the sorted candidate list. -/
structure PresetPower where
  preset : String
  power : ℚ
deriving DecidableEq

/-- Ascending wattage, the sort key of `determineTargetPreset`. -/
def presetPowerLE (a b : PresetPower) : Prop := a.power ≤ b.power

instance : DecidableRel presetPowerLE :=
  fun a b => inferInstanceAs (Decidable (a.power ≤ b.power))

instance : IsTotal PresetPower presetPowerLE :=
  ⟨fun a b => le_total a.power b.power⟩

instance : IsTrans PresetPower presetPowerLE :=
  ⟨fun _ _ _ hab hbc => le_trans hab hbc⟩

/-- Reduce branch of `determineTargetPreset`: first entry of the descending
list whose wattage is strictly below the current one (any entry when the
current wattage is unknown). -/
def findReduceTarget (currentPower : Option ℚ) :
    List PresetPower → Option String × Option ℚ
  | [] => (none, none)
  | p :: rest =>
    let lower : Bool :=
      match currentPower with
      | none => true
      | some c => decide (p.power < c)
    if lower then (some p.preset, some p.power)
    else findReduceTarget currentPower rest

/-- Increase branch of `determineTargetPreset`, iterating the ascending list.
`seenBefore` holds the names of the already visited entries; the source also
rescans the list comparing the current preset against the candidate, but that
scan only breaks out of itself and has no effect, so it has no counterpart
here. -/
def findIncreaseTarget (maxPreset : Option String) (all : List PresetPower)
    (currentPower : Option ℚ) :
    List PresetPower → List String → Option String × Option ℚ
  | [], _ => (none, none)
  | p :: rest, seenBefore =>
    let seen := seenBefore ++ [p.preset]
    let higher : Bool :=
      match currentPower with
      | none => true
      | some c => decide (c < p.power)
    if higher then
      let skipBeforeMax : Bool :=
        match maxPreset with
        | some m => decide (p.preset ≠ m) && !(decide (m ∈ seen))
        | none => false
      if skipBeforeMax then findIncreaseTarget maxPreset all currentPower rest seen
      else
        let exceedsMax : Bool :=
          match maxPreset with
          | some m => all.any (fun pp => decide (pp.preset = m) && decide (pp.power < p.power))
          | none => false
        if exceedsMax then findIncreaseTarget maxPreset all currentPower rest seen
        else (some p.preset, some p.power)
    else findIncreaseTarget maxPreset all currentPower rest seen

/-- Embedding of `determineTargetPreset`. -/
def determineTargetPreset (m : Miner) (delta : ℚ) (ppm : PresetPowerMap) :
    Except String (Option String × Option ℚ) :=
  match m.model with
  | none => .error "miner has no model"
  | some mv =>
    match alistLookup ppm mv.aliasKey with
    | none => .error "no preset power data for model"
    | some pm =>
      if pm.isEmpty then .error "no preset power data for model"
      else
        let presets :=
          List.insertionSort presetPowerLE (pm.map (fun p => ⟨p.1, p.2⟩))
        let currentPower : Option ℚ :=
          match m.latestStatus with
          | some st =>
            match st.preset with
            | some p => alistLookup pm p
            | none => none
          | none => none
        if delta < 0 then .ok (findReduceTarget currentPower presets.reverse)
        else .ok (findIncreaseTarget mv.maxPreset presets currentPower presets [])

/-! ## JSON number parsing (`encoding/json` unmarshal into `float64`) -/

/-- JSON insignificant whitespace. -/
def isJsonSpace (c : Char) : Bool := c = ' ' || c = '\t' || c = '\n' || c = '\r'

/-- Model of `json.Unmarshal` of a bare JSON number into a `float64`:
optional minus, an integer part without leading zeros, optional fraction and
exponent; surrounding whitespace allowed.  Exact over `ℚ`. -/
def jsonParseNumber (s : String) : Option ℚ :=
  let cs := ((s.data.dropWhile isJsonSpace).reverse.dropWhile isJsonSpace).reverse
  let signed : ℚ × List Char :=
    match cs with
    | '-' :: r => (-1, r)
    | r => (1, r)
  let sign := signed.1
  let cs := signed.2
  let ip := cs.takeWhile isDigitChar
  let intOk : Bool :=
    match ip with
    | [] => false
    | ['0'] => true
    | c :: _ => decide (c ≠ '0')
  if !intOk then none
  else
    let rest := cs.drop ip.length
    let fracSplit : Option (List Char × List Char) :=
      match rest with
      | '.' :: r =>
        let f := r.takeWhile isDigitChar
        if f.isEmpty then none else some (f, r.drop f.length)
      | r => some ([], r)
    match fracSplit with
    | none => none
    | some (f, rest2) =>
      let expVal : Option ℤ :=
        match rest2 with
        | [] => some 0
        | c :: r =>
          if c = 'e' || c = 'E' then
            let esigned : ℤ × List Char :=
              match r with
              | '+' :: r2 => (1, r2)
              | '-' :: r2 => (-1, r2)
              | r2 => (1, r2)
            if esigned.2 ≠ [] ∧ esigned.2.all isDigitChar then
              some (esigned.1 * digitsToNat esigned.2)
            else none
          else none
      match expVal with
      | none => none
      | some e =>
        some (applyExp10 (sign * ((digitsToNat ip : ℚ) + (digitsToNat f : ℚ) / qPow10 f.length)) e)

/-! ## Balancer: one tick (`balance`)

A tick is modelled as a pure function of everything `balance` reads: the
latest plant reading, the raw `safety_margin_percent` setting (`none` when
`GetAppSetting` reports the key missing), the miner list, the
`GetAllModelPresets` result, the persisted cooldown map, the current time and
an oracle `fwOk` giving the outcome of each firmware `set_preset` call. -/

/-- `presetChangeCooldown` (30 s). -/
def presetChangeCooldown : ℤ := 30

/-- One planned change (`plannedChanges` map entry). -/
structure PlanEntry where
  targetPreset : String
  targetPower : Option ℚ
deriving DecidableEq

/-- Running state of the planning loop. -/
structure PlanState where
  planned : List (String × PlanEntry)
  expected : ℚ
  delta : ℚ
deriving DecidableEq

/-- Embedding of the planning loop of `balance` (lines building
`plannedChanges`): skip cooled-down miners, pick a target via
`determineTargetPreset`, skip no-ops, accumulate expected consumption and
remaining delta, stop inside the 2000 W band. -/
def planLoop (cooldown : List (String × ℤ)) (now : ℤ) (ppm : PresetPowerMap) :
    List MinerEfficiency → PlanState → PlanState
  | [], st => st
  | me :: rest, st =>
    let cooled : Bool :=
      match alistLookup cooldown me.miner.id with
      | some last => decide (now - last < presetChangeCooldown)
      | none => false
    if cooled then planLoop cooldown now ppm rest st
    else
      match determineTargetPreset me.miner st.delta ppm with
      | .error _ => planLoop cooldown now ppm rest st
      | .ok (targetPreset, targetPower) =>
        match targetPreset with
        | none => planLoop cooldown now ppm rest st
        | some t =>
          if me.currentPreset = some t then planLoop cooldown now ppm rest st
          else
            let planned := alistInsert st.planned me.miner.id ⟨t, targetPower⟩
            let st2 : PlanState :=
              match me.currentPower, targetPower with
              | some c, some tw =>
                ⟨planned, st.expected + (tw - c), st.delta - (tw - c)⟩
              | _, _ => ⟨planned, st.expected, st.delta⟩
            if |st2.delta| < 2000 then st2
            else planLoop cooldown now ppm rest st2

/-- Result of one `applyPresetChange` call: the `set_preset` call it issued,
the balance events it recorded, and whether it returned without error. -/
structure ApplyResult where
  calls : List (String × String)
  events : List PowerBalanceEventInput
  ok : Bool

/-- Embedding of `applyPresetChange`: fail without a call or event when IP or
API key is missing; otherwise call `set_preset` and record a failure event
(no `total_consumption_after`) or a success event. -/
def applyPresetChange (fwOk : String → String → Bool) (now : ℤ) (m : Miner)
    (oldPreset : Option String) (newPreset : String) (oldPower newPower : Option ℚ)
    (totalConsumBefore targetPower availablePower : ℚ) (reason : String) : ApplyResult :=
  match m.ip, m.apiKey with
  | some _, some _ =>
    if fwOk m.id newPreset then
      let powerChange : ℚ :=
        match oldPower, newPower with
        | some o, some n => n - o
        | _, _ => 0
      { calls := [(m.id, newPreset)]
        events := [{ minerId := m.id, oldPreset := oldPreset, newPreset := some newPreset,
                     oldPower := oldPower, newPower := newPower, reason := reason,
                     totalConsumptionBefore := some totalConsumBefore,
                     totalConsumptionAfter := some (totalConsumBefore + powerChange),
                     availablePower := some availablePower, targetPower := some targetPower,
                     success := true, errorMessage := none, recordedAt := now }]
        ok := true }
    else
      { calls := [(m.id, newPreset)]
        events := [{ minerId := m.id, oldPreset := oldPreset, newPreset := some newPreset,
                     oldPower := oldPower, newPower := newPower, reason := reason,
                     totalConsumptionBefore := some totalConsumBefore,
                     totalConsumptionAfter := none,
                     availablePower := some availablePower, targetPower := some targetPower,
                     success := false, errorMessage := some "set preset via firmware",
                     recordedAt := now }]
        ok := false }
  | _, _ => { calls := [], events := [], ok := false }

/-- Running state of the application loop. -/
structure ApplyState where
  events : List PowerBalanceEventInput
  calls : List (String × String)
  cooldown : List (String × ℤ)
  delta : ℚ
  current : ℚ
  adjusted : ℕ

/-- Embedding of the application loop of `balance`: apply each planned change
via `applyPresetChange`; on success update the cooldown map, recompute delta
and running consumption, and stop inside the 2000 W band. -/
def applyLoop (fwOk : String → String → Bool) (now : ℤ)
    (targetPowerW availablePowerW : ℚ) (planned : List (String × PlanEntry)) :
    List MinerEfficiency → ApplyState → ApplyState
  | [], st => st
  | me :: rest, st =>
    match alistLookup planned me.miner.id with
    | none => applyLoop fwOk now targetPowerW availablePowerW planned rest st
    | some entry =>
      let res := applyPresetChange fwOk now me.miner me.currentPreset entry.targetPreset
        me.currentPower entry.targetPower st.current targetPowerW availablePowerW
        "automatic_balance"
      let st1 : ApplyState :=
        { st with events := st.events ++ res.events, calls := st.calls ++ res.calls }
      if res.ok then
        let st2 : ApplyState :=
          { st1 with cooldown := alistInsert st1.cooldown me.miner.id now,
                     adjusted := st1.adjusted + 1 }
        let st3 : ApplyState :=
          match me.currentPower, entry.targetPower with
          | some c, some tw =>
            { st2 with delta := st2.delta - (tw - c), current := st2.current + (tw - c) }
          | _, _ => st2
        if |st3.delta| < 2000 then st3
        else applyLoop fwOk now targetPowerW availablePowerW planned rest st3
      else applyLoop fwOk now targetPowerW availablePowerW planned rest st1

/-- Everything one `balance` tick reads. -/
structure TickInput where
  reading : Option PlantReading
  marginSetting : Option String
  miners : List Miner
  allPresets : List (String × List ModelPreset)
  cooldown : List (String × ℤ)
  now : ℤ
  fwOk : String → String → Bool

/-- Everything one `balance` tick produces or persists. -/
structure TickOutput where
  targetW : ℚ
  currentW : ℚ
  planned : List (String × PlanEntry)
  expectedW : Option ℚ
  events : List PowerBalanceEventInput
  calls : List (String × String)
  cooldownOut : List (String × ℤ)
  adjusted : ℕ

/-- Embedding of one tick of `PowerBalancer.balance`. -/
def balance (inp : TickInput) : Except String TickOutput :=
  match inp.reading with
  | none =>
    .ok { targetW := 0, currentW := 0, planned := [], expectedW := none, events := [],
          calls := [], cooldownOut := inp.cooldown, adjusted := 0 }
  | some reading =>
    match inp.marginSetting with
    | none => .error "get safety margin"
    | some ms =>
      let safetyMargin : ℚ :=
        match jsonParseNumber ms with
        | some v => v
        | none => 10
      let targetPower := reading.totalGeneration * (1 - safetyMargin / 100)
      let eligible := filterEligibleMiners inp.miners
      let allOnline := filterOnlineMiners inp.miners
      let ppm := loadPresetPowerMap inp.allPresets allOnline
      let currentConsumptionW := calculateCurrentConsumption allOnline ppm
      let targetPowerW := targetPower * 1000
      let delta := targetPowerW - currentConsumptionW
      if |delta| < 2000 then
        .ok { targetW := targetPowerW, currentW := currentConsumptionW, planned := [],
              expectedW := none, events := [], calls := [], cooldownOut := inp.cooldown,
              adjusted := 0 }
      else
        let effs := calculateEfficiencies eligible ppm
        let sorted :=
          if delta < 0 then List.insertionSort effGE effs
          else List.insertionSort effLE effs
        let plan := planLoop inp.cooldown inp.now ppm sorted
          { planned := [], expected := currentConsumptionW, delta := delta }
        let applied := applyLoop inp.fwOk inp.now targetPowerW
          (reading.availablePower * 1000) plan.planned sorted
          { events := [], calls := [], cooldown := inp.cooldown,
            delta := targetPowerW - currentConsumptionW, current := currentConsumptionW,
            adjusted := 0 }
        .ok { targetW := targetPowerW, currentW := currentConsumptionW,
              planned := plan.planned, expectedW := some plan.expected,
              events := applied.events, calls := applied.calls,
              cooldownOut := applied.cooldown, adjusted := applied.adjusted }

/-! ## Plant sampler (the `{reading:{…}}` poller in the app package)

`pollProcess` embeds the body of `PlantPoller.poll` after a decoded 2xx
response: the confidence gate, per-source filtering, MW→kW conversion and the
construction of the `PlantReadingInput`; `pollStep` composes it with
`RecordPlantReading`, which appends a row. -/

/-- `trust` block of the plant API response. -/
structure TrustInfo where
  confidenceScore : ℚ
  status : String
deriving DecidableEq

/-- `totals` block of the plant API response (MW). -/
structure PlantTotals where
  generationMW : ℚ
  consumptionMW : ℚ
  exportedMW : ℚ
deriving DecidableEq

/-- One per-source entry of the plant API response. -/
structure SourceReading where
  status : String
  valueMW : ℚ
deriving DecidableEq

/-- `reading` object of the plant API response. -/
structure PlantDataReading where
  plantId : String
  collectionTimestamp : ℤ
  generation : List (String × SourceReading)
  consumption : List (String × SourceReading)
  totals : PlantTotals
  trust : TrustInfo
deriving DecidableEq

/-- The decoded plant API response. -/
structure PlantAPIResponse where
  reading : PlantDataReading
deriving DecidableEq

/-- `database.PlantReadingInput` (raw JSON blob omitted). -/
structure PlantReadingInput where
  plantId : String
  totalGeneration : ℚ
  totalContainerConsumption : ℚ
  availablePower : ℚ
  generationSources : List (String × ℚ)
  consumptionSources : List (String × ℚ)
  recordedAt : ℤ
deriving DecidableEq

/-- Embedding of `PlantPoller.poll` after decoding: `none` when the reading is
skipped for low confidence. -/
def pollProcess (resp : PlantAPIResponse) : Option PlantReadingInput :=
  let reading := resp.reading
  if reading.trust.confidenceScore ≤ 8 / 10 then none
  else
    let generationSources := reading.generation.foldl (fun acc p =>
      if p.2.status = "success" then alistInsert acc p.1 p.2.valueMW else acc) []
    let consumptionSources := reading.consumption.foldl (fun acc p =>
      if p.2.status = "success" then alistInsert acc p.1 p.2.valueMW else acc) []
    let totalGenerationKW := reading.totals.generationMW * 1000
    let totalConsumptionKW := reading.totals.consumptionMW * 1000
    some { plantId := reading.plantId
           totalGeneration := totalGenerationKW
           totalContainerConsumption := totalConsumptionKW
           availablePower := totalGenerationKW - totalConsumptionKW
           generationSources := generationSources
           consumptionSources := consumptionSources
           recordedAt := reading.collectionTimestamp }

/-- One poll against the store: `RecordPlantReading` appends a row; a skipped
reading leaves the store untouched and records nothing. -/
def pollStep (store : List PlantReadingInput) (resp : PlantAPIResponse) :
    List PlantReadingInput × Option PlantReadingInput :=
  match pollProcess resp with
  | none => (store, none)
  | some i => (store ++ [i], some i)

/-! ## Store (internal/database, SQLite-backed)

Rows carry the columns the verified operations touch; every table keeps its
autoincrement counter in the database value.  A transactional operation
returns `Except`: the error case is a rollback, the caller keeps the original
database. -/

/-- A `miners` row (timestamps omitted). -/
structure MinerRow where
  id : String
  ip : Option String
  apiKey : Option String
  managed : Bool
  unlockPass : String
  modelId : Option ℕ
  latestStatusId : Option ℕ
deriving DecidableEq

/-- A `statuses` row. -/
structure StatusRow where
  id : ℕ
  minerId : String
  uptime : Option ℤ
  state : Option String
  preset : Option String
  hashrate : Option ℚ
  powerUsage : Option ℚ
  powerConsumption : Option ℚ
  recordedAt : ℤ
deriving DecidableEq

/-- A `status_fans` row. -/
structure FanRow where
  id : ℕ
  statusId : ℕ
  fanIdentifier : Option String
  rpm : Option ℤ
  status : Option String
deriving DecidableEq

/-- A `chain_snapshots` row (`statusId = none` for standalone telemetry). -/
structure ChainRow where
  id : ℕ
  minerId : String
  statusId : Option ℕ
  chainIdentifier : Option String
  state : Option String
  hashrate : Option ℚ
  pcbTempMin : Option ℚ
  pcbTempMax : Option ℚ
  chipTempMin : Option ℚ
  chipTempMax : Option ℚ
  recordedAt : ℤ
deriving DecidableEq

/-- A `chain_chips` row. -/
structure ChipRow where
  id : ℕ
  chainSnapshotId : ℕ
  chipIdentifier : Option String
  hashrate : Option ℚ
  temperature : Option ℚ
deriving DecidableEq

/-- A `models` row. -/
structure ModelRow where
  id : ℕ
  name : String
  aliasKey : String
  maxPreset : Option String
deriving DecidableEq

/-- A `model_presets` row. -/
structure ModelPresetRow where
  id : ℕ
  modelId : ℕ
  value : String
  position : ℕ
  expectedPowerW : Option ℚ
  expectedHashrateTH : Option ℚ
deriving DecidableEq

/-- The database value: tables plus per-table autoincrement counters. -/
structure DB where
  miners : List MinerRow
  statuses : List StatusRow
  statusFans : List FanRow
  chainSnapshots : List ChainRow
  chainChips : List ChipRow
  models : List ModelRow
  modelPresets : List ModelPresetRow
  nextStatusId : ℕ
  nextFanId : ℕ
  nextChainId : ℕ
  nextChipId : ℕ
  nextModelId : ℕ
  nextPresetId : ℕ
deriving DecidableEq

/-- `nullableTrimmedString`: trim, and store NULL for empty results. -/
def nullableTrimmedString (value : Option String) : Option String :=
  match value with
  | none => none
  | some s =>
    let t := goTrimSpace s
    if t = "" then none else some t

/-! ## `RecordMinerStatus` (internal/database/statuses.go) -/

/-- `FanStatusInput`. -/
structure FanStatusInput where
  fanIdentifier : Option String
  rpm : Option ℤ
  status : Option String
deriving DecidableEq

/-- `ChipSnapshotInput`. -/
structure ChipSnapshotInput where
  chipIdentifier : Option String
  hashrate : Option ℚ
  temperature : Option ℚ
deriving DecidableEq

/-- `ChainSnapshotInput`. -/
structure ChainSnapshotInput where
  chainIdentifier : Option String
  state : Option String
  hashrate : Option ℚ
  pcbTempMin : Option ℚ
  pcbTempMax : Option ℚ
  chipTempMin : Option ℚ
  chipTempMax : Option ℚ
  chips : List ChipSnapshotInput
deriving DecidableEq

/-- `MinerStatusInput` (`recordedAt = none` models the zero `time.Time`,
replaced by the current instant). -/
structure MinerStatusInput where
  uptime : Option ℤ
  state : Option String
  preset : Option String
  hashrate : Option ℚ
  powerUsage : Option ℚ
  powerConsumption : Option ℚ
  recordedAt : Option ℤ
  fans : List FanStatusInput
  chains : List ChainSnapshotInput
deriving DecidableEq

/-- The fan-insert loop of `RecordMinerStatus`: rows for one status snapshot,
ids allocated ascending from the fan counter. -/
def insertFans (statusId : ℕ) : List FanStatusInput → ℕ → List FanRow × ℕ
  | [], nextId => ([], nextId)
  | fan :: rest, nextId =>
    let row : FanRow :=
      { id := nextId, statusId := statusId,
        fanIdentifier := nullableTrimmedString fan.fanIdentifier,
        rpm := fan.rpm, status := nullableTrimmedString fan.status }
    let tail := insertFans statusId rest (nextId + 1)
    (row :: tail.1, tail.2)

/-- The chip-insert loop of `RecordMinerStatus` for one chain snapshot. -/
def insertChips (chainId : ℕ) : List ChipSnapshotInput → ℕ → List ChipRow × ℕ
  | [], nextId => ([], nextId)
  | chip :: rest, nextId =>
    let row : ChipRow :=
      { id := nextId, chainSnapshotId := chainId,
        chipIdentifier := nullableTrimmedString chip.chipIdentifier,
        hashrate := chip.hashrate, temperature := chip.temperature }
    let tail := insertChips chainId rest (nextId + 1)
    (row :: tail.1, tail.2)

/-- The chain-insert loop of `RecordMinerStatus`: chain rows attached to the
status snapshot together with their chip rows and the advanced counters. -/
def insertChains (minerId : String) (statusId : ℕ) (recordedAt : ℤ) :
    List ChainSnapshotInput → ℕ → ℕ → List ChainRow × List ChipRow × ℕ × ℕ
  | [], nextChainId, nextChipId => ([], [], nextChainId, nextChipId)
  | chain :: rest, nextChainId, nextChipId =>
    let row : ChainRow :=
      { id := nextChainId, minerId := minerId, statusId := some statusId,
        chainIdentifier := nullableTrimmedString chain.chainIdentifier,
        state := nullableTrimmedString chain.state,
        hashrate := chain.hashrate, pcbTempMin := chain.pcbTempMin,
        pcbTempMax := chain.pcbTempMax, chipTempMin := chain.chipTempMin,
        chipTempMax := chain.chipTempMax, recordedAt := recordedAt }
    let chips := insertChips nextChainId chain.chips nextChipId
    let tail := insertChains minerId statusId recordedAt rest (nextChainId + 1) chips.2
    (row :: tail.1, chips.1 ++ tail.2.1, tail.2.2.1, tail.2.2.2)

/-- Embedding of `RecordMinerStatus`: one transaction inserting the status
row, its fans, chains and chips, then attaching `latest_status_id` to the
miner; the attach reporting zero affected rows makes the whole transaction
roll back with a not-found error.  Returns the committed database and the new
status id. -/
def recordMinerStatus (db : DB) (now : ℤ) (minerID : String)
    (input : MinerStatusInput) : Except String (DB × ℕ) :=
  let tid := goTrimSpace minerID
  if tid = "" then .error "miner id is required"
  else
    let recordedAt := input.recordedAt.getD now
    let statusId := db.nextStatusId
    let statusRow : StatusRow :=
      { id := statusId, minerId := tid, uptime := input.uptime,
        state := nullableTrimmedString input.state,
        preset := nullableTrimmedString input.preset,
        hashrate := input.hashrate, powerUsage := input.powerUsage,
        powerConsumption := input.powerConsumption, recordedAt := recordedAt }
    let fans := insertFans statusId input.fans db.nextFanId
    let chains := insertChains tid statusId recordedAt input.chains db.nextChainId db.nextChipId
    if db.miners.any (fun m => decide (m.id = tid)) then
      .ok ({ db with
               statuses := db.statuses ++ [statusRow]
               statusFans := db.statusFans ++ fans.1
               chainSnapshots := db.chainSnapshots ++ chains.1
               chainChips := db.chainChips ++ chains.2.1
               miners := db.miners.map (fun m =>
                 if m.id = tid then { m with latestStatusId := some statusId } else m)
               nextStatusId := statusId + 1
               nextFanId := fans.2
               nextChainId := chains.2.2.1
               nextChipId := chains.2.2.2 }, statusId)
    else .error "miner not found"

/-! ## `UpsertModel` (the models part of the database package) -/

/-- `database.ModelInput`; `presets = none` leaves stored presets untouched,
an empty list clears them. -/
structure ModelInput where
  name : String
  aliasKey : String
  presets : Option (List String)
  maxPreset : Option String
deriving DecidableEq

/-- `containsCaseInsensitive` from the dashboard server. -/
def containsCaseInsensitive (values : List String) (target : String) : Bool :=
  let t := goTrimSpace (goToLower target)
  values.any (fun v => decide (goToLower (goTrimSpace v) = t))

/-- The preset half of `validateModelInput`: each value trims nonempty, with
no case-insensitive duplicates (`seen` is the Go `seen` set). -/
def checkPresetList : List String → List String → Except String Unit
  | [], _ => .ok ()
  | preset :: rest, seen =>
    let value := goTrimSpace preset
    if value = "" then .error "preset at position is empty"
    else
      let key := goToLower value
      if key ∈ seen then .error "duplicate preset value"
      else checkPresetList rest (seen ++ [key])

/-- Embedding of `validateModelInput`: nonempty name and alias; presets
trimmed nonempty with no case-insensitive duplicates.  There is no
`max_preset` membership check here. -/
def validateModelInput (input : ModelInput) : Except String Unit :=
  if goTrimSpace input.name = "" then .error "model name is required"
  else if goTrimSpace input.aliasKey = "" then .error "model alias is required"
  else checkPresetList (input.presets.getD []) []

/-- The preset replacement loop of `UpsertModel` (delete then insert in
order); errors on an empty trimmed value. -/
def insertModelPresets (modelId : ℕ) :
    List String → ℕ → ℕ → Except String (List ModelPresetRow × ℕ)
  | [], _, nextId => .ok ([], nextId)
  | preset :: rest, idx, nextId =>
    let value := goTrimSpace preset
    if value = "" then .error "preset at position is empty"
    else
      match insertModelPresets modelId rest (idx + 1) (nextId + 1) with
      | .error e => .error e
      | .ok (rows, n) =>
        .ok ({ id := nextId, modelId := modelId, value := value, position := idx,
               expectedPowerW := none, expectedHashrateTH := none } :: rows, n)

/-- Embedding of `UpsertModel`: validate, upsert the `models` row matched by
alias (`max_preset` stored via `nullableTrimmedString`, with no membership
check), then replace the preset list when one is supplied.  Returns the
committed database and the model id. -/
def upsertModel (db : DB) (input : ModelInput) : Except String (DB × ℕ) :=
  match validateModelInput input with
  | .error e => .error e
  | .ok _ =>
    let existing := db.models.find? (fun m => decide (m.aliasKey = input.aliasKey))
    let upserted : List ModelRow × ℕ × ℕ :=
      match existing with
      | some m =>
        (db.models.map (fun r =>
           if r.aliasKey = input.aliasKey then
             { r with name := input.name, maxPreset := nullableTrimmedString input.maxPreset }
           else r), m.id, db.nextModelId)
      | none =>
        (db.models ++ [{ id := db.nextModelId, name := input.name,
                         aliasKey := input.aliasKey,
                         maxPreset := nullableTrimmedString input.maxPreset }],
         db.nextModelId, db.nextModelId + 1)
    let modelId := upserted.2.1
    let db1 : DB := { db with models := upserted.1, nextModelId := upserted.2.2 }
    match input.presets with
    | none => .ok (db1, modelId)
    | some presets =>
      let kept := db1.modelPresets.filter (fun p => decide (p.modelId ≠ modelId))
      match insertModelPresets modelId presets 0 db1.nextPresetId with
      | .error e => .error e
      | .ok (rows, nextId) =>
        .ok ({ db1 with modelPresets := kept ++ rows, nextPresetId := nextId }, modelId)

/-! ## Model reads and the dashboard `updateModel` handler -/

/-- `ORDER BY position, id` for preset rows. -/
def presetRowLE (a b : ModelPresetRow) : Prop :=
  a.position < b.position ∨ (a.position = b.position ∧ a.id ≤ b.id)

instance : DecidableRel presetRowLE :=
  fun a b => inferInstanceAs (Decidable (_ ∨ _))

instance : IsTotal ModelPresetRow presetRowLE := by
  constructor
  intro a b
  rcases lt_trichotomy a.position b.position with h | h | h
  · exact Or.inl (Or.inl h)
  · rcases le_total a.id b.id with h2 | h2
    · exact Or.inl (Or.inr ⟨h, h2⟩)
    · exact Or.inr (Or.inr ⟨h.symm, h2⟩)
  · exact Or.inr (Or.inl h)

instance : IsTrans ModelPresetRow presetRowLE := by
  constructor
  intro a b c hab hbc
  rcases hab with h1 | ⟨h1, h1b⟩
  · rcases hbc with h2 | ⟨h2, h2b⟩
    · exact Or.inl (h1.trans h2)
    · exact Or.inl (h2 ▸ h1)
  · rcases hbc with h2 | ⟨h2, h2b⟩
    · exact Or.inl (h1 ▸ h2)
    · exact Or.inr ⟨h1.trans h2, h1b.trans h2b⟩

/-- `loadPresetsTx`: preset values of a model ordered by position then id. -/
def loadPresets (db : DB) (modelId : ℕ) : List String :=
  (List.insertionSort presetRowLE
    (db.modelPresets.filter (fun p => decide (p.modelId = modelId)))).map
    (fun p => p.value)

/-- `GetModelByAlias` (via `getModelIDByAlias` and `getModelByIDTx`). -/
def getModelByAlias (db : DB) (a : String) : Except String Model :=
  match db.models.find? (fun m => decide (m.aliasKey = a)) with
  | none => .error "model alias not found"
  | some row =>
    .ok { name := row.name, aliasKey := row.aliasKey,
          presets := loadPresets db row.id, maxPreset := row.maxPreset }

/-- Outcome of the dashboard `updateModel` handler, with the database it
leaves behind. -/
inductive HandlerResult where
  | ok (db : DB) (m : Model)
  | badRequest (msg : String) (db : DB)
  | notFound (db : DB)
  | internalError (db : DB)
deriving DecidableEq

/-- Embedding of the dashboard `PATCH` model handler (`updateModel`):
fetch the model, require an update, trim the requested `max_preset`
(empty clears), reject a value that does not case-insensitively match an
available preset with 400, and otherwise upsert with the presets left
untouched.  `req = none` models an absent `max_preset` field. -/
def updateModelHandler (db : DB) (a : String) (req : Option String) : HandlerResult :=
  match getModelByAlias db a with
  | .error _ => .notFound db
  | .ok model =>
    match req with
    | none => .badRequest "no fields to update" db
    | some v =>
      let value := goTrimSpace v
      let proceed : Option String → HandlerResult := fun maxPreset =>
        match upsertModel db { name := model.name, aliasKey := model.aliasKey,
                               presets := none, maxPreset := maxPreset } with
        | .ok (db2, _) =>
          match getModelByAlias db2 model.aliasKey with
          | .ok updated => .ok db2 updated
          | .error _ => .internalError db2
        | .error _ => .internalError db
      if value = "" then proceed none
      else if containsCaseInsensitive model.presets value then proceed (some value)
      else .badRequest "max_preset must match an available preset" db

/-! ## `UpsertMiner` (internal/database) -/

/-- `database.UpsertMinerParams`. -/
structure UpsertMinerParams where
  id : String
  ip : Option String
  apiKey : Option String
  managed : Option Bool
  unlockPass : Option String
  modelAlias : Option String
deriving DecidableEq

/-- The row created by `INSERT INTO miners (id)` under the schema defaults. -/
def defaultMinerRow (minerID : String) : MinerRow :=
  { id := minerID, ip := none, apiKey := none, managed := false,
    unlockPass := "admin", modelId := none, latestStatusId := none }

/-- The `sets` collection phase of `UpsertMiner` as one row-update function:
supplied fields are applied together, as one `UPDATE` of distinct columns; an
empty trimmed `ip`/`api_key` clears the column, an empty trimmed
`unlock_pass` or `model_alias` is an error, and a `model_alias` that matches
no model is an error.  Validation happens while the update set is built,
before any row is touched. -/
def buildMinerUpdates (db : DB) (params : UpsertMinerParams) :
    Except String (MinerRow → MinerRow) :=
  let fIp : MinerRow → MinerRow :=
    match params.ip with
    | none => id
    | some s =>
      let t := goTrimSpace s
      if t = "" then fun r => { r with ip := none }
      else fun r => { r with ip := some t }
  let fKey : MinerRow → MinerRow :=
    match params.apiKey with
    | none => id
    | some s =>
      let t := goTrimSpace s
      if t = "" then fun r => { r with apiKey := none }
      else fun r => { r with apiKey := some t }
  let fManaged : MinerRow → MinerRow :=
    match params.managed with
    | none => id
    | some b => fun r => { r with managed := b }
  let unlockStep : Except String (MinerRow → MinerRow) :=
    match params.unlockPass with
    | none => .ok id
    | some p =>
      let t := goTrimSpace p
      if t = "" then .error "unlock password cannot be empty"
      else .ok (fun r => { r with unlockPass := t })
  match unlockStep with
  | .error e => .error e
  | .ok fUnlock =>
    let modelStep : Except String (MinerRow → MinerRow) :=
      match params.modelAlias with
      | none => .ok id
      | some a =>
        let t := goTrimSpace a
        if t = "" then .error "model alias cannot be empty"
        else
          match db.models.find? (fun m => decide (m.aliasKey = t)) with
          | none => .error "model alias not found"
          | some m => .ok (fun r => { r with modelId := some m.id })
    match modelStep with
    | .error e => .error e
    | .ok fModel => .ok (fun r => fModel (fUnlock (fManaged (fKey (fIp r)))))

/-- Embedding of `UpsertMiner`: in one transaction, insert the row if absent
(`ON CONFLICT DO NOTHING`), build the update set (with its validation), and
apply it to the matching row; any error rolls the whole transaction back,
including the insert. -/
def upsertMiner (db : DB) (params : UpsertMinerParams) : Except String DB :=
  let minerID := goTrimSpace params.id
  if minerID = "" then .error "miner id is required"
  else
    let db1 : DB :=
      if db.miners.any (fun m => decide (m.id = minerID)) then db
      else { db with miners := db.miners ++ [defaultMinerRow minerID] }
    match buildMinerUpdates db1 params with
    | .error e => .error e
    | .ok f =>
      .ok { db1 with miners := db1.miners.map (fun m => if m.id = minerID then f m else m) }

/-- The database visible after `UpsertMiner` returns: the committed one on
success, the untouched original on rollback. -/
def upsertMinerDB (db : DB) (params : UpsertMinerParams) : DB :=
  match upsertMiner db params with
  | .ok db2 => db2
  | .error _ => db

/-! ## Facts about digit characters -/

/-- Enumeration view of `isDigitChar`. -/
theorem isDigitChar_cases {c : Char} (h : isDigitChar c = true) :
    c = '0' ∨ c = '1' ∨ c = '2' ∨ c = '3' ∨ c = '4' ∨ c = '5' ∨ c = '6' ∨
    c = '7' ∨ c = '8' ∨ c = '9' := by
  simpa [isDigitChar] using h

/-- Digits are kept by `goToLower` and are not spaces, signs, dots or
exponent markers. -/
theorem digitChar_facts {c : Char} (h : isDigitChar c = true) :
    goToLowerChar c = c ∧ isGoSpace c = false ∧ c ≠ '+' ∧ c ≠ '-' ∧
    c ≠ '.' ∧ (c = 'e' || c = 'E') = false := by
  rcases isDigitChar_cases h with rfl | rfl | rfl | rfl | rfl | rfl | rfl | rfl | rfl | rfl <;>
    refine ⟨by decide, by decide, by decide, by decide, by decide, by decide⟩

/-! # Claims -/

/-! ## C3 — tolerance band: no calls when the entry delta is inside 2000 W -/

/-- The safety margin the code uses: the parsed setting value, with 10 as
the fallback only when unmarshalling fails. -/
def codeSafetyMargin (ms : String) : ℚ :=
  match jsonParseNumber ms with
  | some v => v
  | none => 10

/-- Target power in W as computed at tick entry. -/
def entryTargetW (r : PlantReading) (ms : String) : ℚ :=
  r.totalGeneration * (1 - codeSafetyMargin ms / 100) * 1000

/-- Current consumption in W as computed at tick entry. -/
def entryCurrentW (inp : TickInput) : ℚ :=
  calculateCurrentConsumption (filterOnlineMiners inp.miners)
    (loadPresetPowerMap inp.allPresets (filterOnlineMiners inp.miners))

/-- C3: on a tick whose entry delta `target_w − current_w` is strictly inside
the 2000 W band, `balance` succeeds with no `set_preset` calls, no events and
an empty plan, leaving the cooldown map untouched. -/
theorem C3_tolerance_no_calls (inp : TickInput) (r : PlantReading) (ms : String)
    (h1 : inp.reading = some r) (h2 : inp.marginSetting = some ms)
    (h3 : |entryTargetW r ms - entryCurrentW inp| < 2000) :
    ∃ out, balance inp = .ok out ∧ out.calls = [] ∧ out.events = [] ∧
      out.planned = [] ∧ out.cooldownOut = inp.cooldown := by
  unfold balance
  rw [h1, h2]
  simp only [entryTargetW, entryCurrentW, codeSafetyMargin] at h3
  dsimp only
  rw [if_pos h3]
  exact ⟨_, rfl, rfl, rfl, rfl, rfl⟩

/-- C3 witness: a concrete within-tolerance tick. -/
theorem C3_witness :
    (let inp : TickInput :=
      { reading := some { totalGeneration := 1, availablePower := 1 },
        marginSetting := some "10", miners := [], allPresets := [],
        cooldown := [("aa", 5)], now := 100, fwOk := fun _ _ => true };
     ∃ out, balance inp = .ok out ∧ out.calls = [] ∧ out.events = [] ∧
       out.planned = [] ∧ out.cooldownOut = inp.cooldown) := by
  refine C3_tolerance_no_calls _ _ _ rfl rfl ?_
  norm_num +decide [entryTargetW, entryCurrentW, codeSafetyMargin, jsonParseNumber,
    isJsonSpace, isDigitChar, digitsToNat, digitVal, qPow10, applyExp10,
    calculateCurrentConsumption, loadPresetPowerMap, filterOnlineMiners]

/-! ## C4 — target computation and the safety margin -/

/-- The margin prescribed by the claim (refinement model built from the
SPEC's words, to be compared with the code): parsed setting value clamped to
`[0, 50]`, defaulting to 10 when the setting is absent or unparsable. -/
def specSafetyMargin (ms : Option String) : ℚ :=
  match ms with
  | none => 10
  | some s =>
    match jsonParseNumber s with
    | some v => min 50 (max 0 v)
    | none => 10

/-- The statement of claim C4 over a tick. -/
def ClaimC4 : Prop :=
  ∀ inp r out, inp.reading = some r → balance inp = .ok out →
    out.targetW = r.totalGeneration * (1 - specSafetyMargin inp.marginSetting / 100) * 1000

/-- A tick whose stored margin is 80: nothing clamps it. -/
def c4inp : TickInput :=
  { reading := some { totalGeneration := 100, availablePower := 100 },
    marginSetting := some "80", miners := [], allPresets := [],
    cooldown := [], now := 0, fwOk := fun _ _ => true }

/-- C4 counterexample: with the setting at 80 the code computes
`target_w = 100 × (1 − 80/100) × 1000 = 20000`, not the clamped
`100 × (1 − 50/100) × 1000 = 50000`; and an absent setting aborts the tick
instead of defaulting to 10. -/
theorem C4_counterexample : ¬ ClaimC4 := by
  intro h
  have heval : balance c4inp =
      .ok { targetW := 20000, currentW := 0, planned := [], expectedW := some 0,
            events := [], calls := [], cooldownOut := [], adjusted := 0 } := by
    norm_num +decide [balance, c4inp, planLoop, applyLoop, calculateEfficiencies,
      calculateCurrentConsumption, loadPresetPowerMap, filterEligibleMiners,
      filterOnlineMiners, jsonParseNumber, isJsonSpace, isDigitChar, digitsToNat,
      digitVal, qPow10, applyExp10, List.insertionSort]
  have h2 := h c4inp { totalGeneration := 100, availablePower := 100 } _ rfl heval
  rw [show c4inp.marginSetting = some "80" from rfl] at h2
  have h3 : specSafetyMargin (some "80") = 50 := by
    norm_num +decide [specSafetyMargin, jsonParseNumber, isJsonSpace, isDigitChar,
      digitsToNat, digitVal, qPow10, applyExp10]
  rw [h3] at h2
  norm_num at h2

/-- C4 amended: the tick computes
`target_w = total_generation_kw × (1 − m/100) × 1000` where `m` is the parsed
`safety_margin_percent` value used unclamped (10 only when the stored value
fails to parse); when the setting row is absent the tick aborts with an error
instead of defaulting. -/
theorem C4_amended :
    (∀ inp r ms out, inp.reading = some r → inp.marginSetting = some ms →
      balance inp = .ok out →
      out.targetW = r.totalGeneration * (1 - codeSafetyMargin ms / 100) * 1000) ∧
    (∀ inp r, inp.reading = some r → inp.marginSetting = none →
      balance inp = .error "get safety margin") := by
  constructor
  · intro inp r ms out h1 h2 hok
    unfold balance at hok
    rw [h1, h2] at hok
    dsimp only at hok
    rw [codeSafetyMargin]
    split at hok
    · exact (Except.ok.injEq _ _).mp hok ▸ rfl
    · exact (Except.ok.injEq _ _).mp hok ▸ rfl
  · intro inp r h1 h2
    unfold balance
    rw [h1, h2]

/-- C4 amended witness: margin 80 gives exactly 20000 W on the concrete tick,
and the margin-less variant errors. -/
theorem C4_amended_witness :
    (c4inp.reading = some { totalGeneration := 100, availablePower := 100 } ∧
      c4inp.marginSetting = some "80" ∧
      (100 : ℚ) * (1 - codeSafetyMargin "80" / 100) * 1000 = 20000) ∧
    balance { c4inp with marginSetting := none } = .error "get safety margin" := by
  constructor
  · refine ⟨rfl, rfl, ?_⟩
    norm_num +decide [codeSafetyMargin, jsonParseNumber, isJsonSpace, isDigitChar,
      digitsToNat, digitVal, qPow10, applyExp10]
  · exact C4_amended.2 { c4inp with marginSetting := none }
      { totalGeneration := 100, availablePower := 100 } rfl rfl

/-! ## C6 — low-confidence plant readings are never persisted -/

/-- C6: a response whose `trust.confidence_score` is at most 0.8 leaves the
plant readings store untouched and records nothing. -/
theorem C6_low_confidence_not_persisted (store : List PlantReadingInput)
    (resp : PlantAPIResponse) (h : resp.reading.trust.confidenceScore ≤ 8 / 10) :
    pollStep store resp = (store, none) := by
  unfold pollStep pollProcess
  rw [if_pos h]

/-- C6 witness: the boundary case, confidence exactly 0.8, is skipped. -/
theorem C6_witness :
    (let resp : PlantAPIResponse :=
      { reading := { plantId := "p1", collectionTimestamp := 0, generation := [],
                     consumption := [],
                     totals := { generationMW := 1, consumptionMW := 0, exportedMW := 0 },
                     trust := { confidenceScore := 8 / 10, status := "ok" } } };
     resp.reading.trust.confidenceScore ≤ 8 / 10 ∧
       pollStep [] resp = ([], none)) := by
  refine ⟨le_refl _, C6_low_confidence_not_persisted [] _ (le_refl _)⟩

/-! ## C10 — `upsert_miner` rolls back on invalid input -/

/-- `buildMinerUpdates` fails when the supplied unlock password trims to
empty. -/
theorem buildMinerUpdates_unlock_empty (db : DB) (params : UpsertMinerParams)
    (p : String) (h : params.unlockPass = some p) (he : goTrimSpace p = "") :
    buildMinerUpdates db params = .error "unlock password cannot be empty" := by
  unfold buildMinerUpdates
  rw [h]
  simp only [he, if_pos]

/-- `buildMinerUpdates` fails when the supplied model alias resolves to no
model. -/
theorem buildMinerUpdates_alias_unresolved (db : DB) (params : UpsertMinerParams)
    (a : String) (h : params.modelAlias = some a)
    (hm : ∀ mr ∈ db.models, mr.aliasKey ≠ goTrimSpace a) :
    ∃ msg, buildMinerUpdates db params = .error msg := by
  have hfind : db.models.find? (fun m => decide (m.aliasKey = goTrimSpace a)) = none := by
    rw [List.find?_eq_none]
    intro mr hmr
    simpa using hm mr hmr
  unfold buildMinerUpdates
  rw [h]
  rcases hu : params.unlockPass with _ | p
  · dsimp only
    by_cases hea : goTrimSpace a = ""
    · rw [if_pos hea]
      exact ⟨_, rfl⟩
    · rw [if_neg hea, hfind]
      exact ⟨_, rfl⟩
  · dsimp only
    by_cases hep : goTrimSpace p = ""
    · rw [if_pos hep]
      exact ⟨_, rfl⟩
    · rw [if_neg hep]
      dsimp only
      by_cases hea : goTrimSpace a = ""
      · rw [if_pos hea]
        exact ⟨_, rfl⟩
      · rw [if_neg hea, hfind]
        exact ⟨_, rfl⟩

/-- C10: `upsert_miner` with an unlock password that is empty after trimming,
or with a model alias that resolves to no model, fails and leaves no visible
effect: the database is unchanged, so no device row is created for a new id
even though the insert-if-absent step precedes the validation. -/
theorem C10_upsert_miner_rollback :
    (∀ db params p, params.unlockPass = some p → goTrimSpace p = "" →
      (∃ msg, upsertMiner db params = .error msg) ∧ upsertMinerDB db params = db) ∧
    (∀ db params a, params.modelAlias = some a →
      (∀ mr ∈ db.models, mr.aliasKey ≠ goTrimSpace a) →
      (∃ msg, upsertMiner db params = .error msg) ∧ upsertMinerDB db params = db) := by
  have main : ∀ db params,
      (∀ db2 : DB, db2.models = db.models → ∃ msg, buildMinerUpdates db2 params = .error msg) →
      (∃ msg, upsertMiner db params = .error msg) ∧ upsertMinerDB db params = db := by
    intro db params hb
    have herr : ∃ msg, upsertMiner db params = .error msg := by
      unfold upsertMiner
      by_cases hid : goTrimSpace params.id = ""
      · rw [if_pos hid]
        exact ⟨_, rfl⟩
      · rw [if_neg hid]
        dsimp only
        split
        · exact ⟨_, rfl⟩
        · rename_i f heq
          by_cases hany : (db.miners.any fun m => decide (m.id = goTrimSpace params.id)) = true
          · rw [if_pos hany] at heq
            obtain ⟨msg, hmsg⟩ := hb db rfl
            rw [hmsg] at heq
            exact absurd heq (by simp)
          · rw [if_neg hany] at heq
            obtain ⟨msg, hmsg⟩ := hb
              { db with miners := db.miners ++ [defaultMinerRow (goTrimSpace params.id)] } rfl
            rw [hmsg] at heq
            exact absurd heq (by simp)
    refine ⟨herr, ?_⟩
    obtain ⟨m2, hm2⟩ := herr
    unfold upsertMinerDB
    rw [hm2]
  constructor
  · intro db params p h he
    exact main db params (fun db2 _ =>
      ⟨_, buildMinerUpdates_unlock_empty db2 params p h he⟩)
  · intro db params a h hm
    exact main db params (fun db2 hdb2 =>
      buildMinerUpdates_alias_unresolved db2 params a h (by rw [hdb2]; exact hm))

/-- C10 witness: a fresh empty database, an upsert of a new id with an
empty-after-trim unlock password fails and creates no row; one with an
unknown model alias does the same. -/
theorem C10_witness :
    (let db0 : DB :=
      { miners := [], statuses := [], statusFans := [], chainSnapshots := [],
        chainChips := [], models := [], modelPresets := [], nextStatusId := 0,
        nextFanId := 0, nextChainId := 0, nextChipId := 0, nextModelId := 0,
        nextPresetId := 0 };
     let p1 : UpsertMinerParams :=
      { id := "aa:bb", ip := none, apiKey := none, managed := none,
        unlockPass := some "  ", modelAlias := none };
     let p2 : UpsertMinerParams :=
      { id := "aa:bb", ip := none, apiKey := none, managed := none,
        unlockPass := none, modelAlias := some "nosuch" };
     ((∃ msg, upsertMiner db0 p1 = .error msg) ∧ upsertMinerDB db0 p1 = db0) ∧
       ((∃ msg, upsertMiner db0 p2 = .error msg) ∧ upsertMinerDB db0 p2 = db0)) := by
  constructor
  · exact C10_upsert_miner_rollback.1 _ _ "  " rfl (by
      norm_num +decide [goTrimSpace, isGoSpace, String.ext_iff])
  · exact C10_upsert_miner_rollback.2 _ _ "nosuch" rfl (by
      intro mr hmr
      simp at hmr)

/-! ## C8 — `upsert_model` and the `max_preset` membership check -/

/-- The preset list resulting from an upsert: the supplied (trimmed) list
when one is given, the stored list otherwise. -/
def resultingPresets (db : DB) (input : ModelInput) : List String :=
  match input.presets with
  | some l => l.map goTrimSpace
  | none =>
    match db.models.find? (fun m => decide (m.aliasKey = input.aliasKey)) with
    | some m => loadPresets db m.id
    | none => []

/-- The statement of claim C8 (failure half): a non-null `max_preset` outside
the resulting preset list makes `upsert_model` fail. -/
def ClaimC8 : Prop :=
  ∀ db input mp, input.maxPreset = some mp → goTrimSpace mp ≠ "" →
    goTrimSpace mp ∉ resultingPresets db input →
    ∃ msg, upsertModel db input = .error msg

/-- The C8 counterexample input: `max_preset` "zzz" with presets `["900"]`. -/
def c8input : ModelInput :=
  { name := "X", aliasKey := "x", presets := some ["900"], maxPreset := some "zzz" }

/-- The empty database. -/
def emptyDB : DB :=
  { miners := [], statuses := [], statusFans := [], chainSnapshots := [],
    chainChips := [], models := [], modelPresets := [], nextStatusId := 0,
    nextFanId := 0, nextChainId := 0, nextChipId := 0, nextModelId := 0,
    nextPresetId := 0 }

/-- C8 counterexample: the store-level `upsert_model` commits a `max_preset`
that matches no preset of the model, instead of failing. -/
theorem C8_counterexample : ¬ ClaimC8 := by
  intro h
  have heval : upsertModel emptyDB c8input =
      .ok ({ emptyDB with
               models := [{ id := 0, name := "X", aliasKey := "x", maxPreset := some "zzz" }],
               modelPresets := [{ id := 0, modelId := 0, value := "900", position := 0,
                                  expectedPowerW := none, expectedHashrateTH := none }],
               nextModelId := 1, nextPresetId := 1 }, 0) := by
    norm_num +decide [upsertModel, validateModelInput, checkPresetList, insertModelPresets,
      c8input, emptyDB, nullableTrimmedString, goTrimSpace, isGoSpace, String.ext_iff]
  obtain ⟨msg, hmsg⟩ := h emptyDB c8input "zzz" rfl
    (by norm_num +decide [goTrimSpace, isGoSpace, String.ext_iff])
    (by norm_num +decide [resultingPresets, c8input, goTrimSpace, isGoSpace, String.ext_iff])
  rw [heval] at hmsg
  exact absurd hmsg (by simp)

/-- Values accepted by `checkPresetList` trim to nonempty strings. -/
theorem checkPresetList_ok_values :
    ∀ (l seen : List String), checkPresetList l seen = .ok () →
      ∀ v ∈ l, goTrimSpace v ≠ "" := by
  intro l
  induction l with
  | nil => intro seen _ v hv; cases hv
  | cons a rest ih =>
    intro seen h v hv
    unfold checkPresetList at h
    dsimp only at h
    by_cases hea : goTrimSpace a = ""
    · rw [if_pos hea] at h
      cases h
    · rw [if_neg hea] at h
      by_cases hseen : goToLower (goTrimSpace a) ∈ seen
      · rw [if_pos hseen] at h
        cases h
      · rw [if_neg hseen] at h
        rcases List.mem_cons.mp hv with rfl | hv2
        · exact hea
        · exact ih _ h v hv2

/-- `insertModelPresets` succeeds on values that trim to nonempty strings. -/
theorem insertModelPresets_ok (modelId : ℕ) :
    ∀ (l : List String) (idx nextId : ℕ), (∀ v ∈ l, goTrimSpace v ≠ "") →
      ∃ rows n, insertModelPresets modelId l idx nextId = .ok (rows, n) := by
  intro l
  induction l with
  | nil => intro idx nextId _; exact ⟨[], nextId, rfl⟩
  | cons a rest ih =>
    intro idx nextId hvals
    obtain ⟨rows, n, hrows⟩ := ih (idx + 1) (nextId + 1) (fun v hv => hvals v (by simp [hv]))
    refine ⟨({ id := nextId, modelId := modelId, value := goTrimSpace a, position := idx,
               expectedPowerW := none, expectedHashrateTH := none } :: rows), n, ?_⟩
    unfold insertModelPresets
    rw [if_neg (hvals a (by simp)), hrows]

/-- C8 amended: the membership check lives at the HTTP boundary, not in the
store.  (1) Store-level `upsert_model` succeeds on any validated input,
committing `max_preset` verbatim with no membership check; (2) the dashboard
model-update handler rejects with 400 a `max_preset` that does not
case-insensitively match an available preset, leaving the database untouched;
(3) with a matching `max_preset` the handler succeeds and the stored
`max_preset` becomes the requested value. -/
theorem C8_amended :
    (∀ db input, validateModelInput input = .ok () →
      ∃ db2 id, upsertModel db input = .ok (db2, id) ∧
        (∃ row ∈ db2.models, row.aliasKey = input.aliasKey) ∧
        (∀ row ∈ db2.models, row.aliasKey = input.aliasKey →
          row.maxPreset = nullableTrimmedString input.maxPreset)) ∧
    (∀ db a v model, getModelByAlias db a = .ok model → goTrimSpace v ≠ "" →
      containsCaseInsensitive model.presets (goTrimSpace v) = false →
      updateModelHandler db a (some v) =
        .badRequest "max_preset must match an available preset" db) ∧
    (∀ db a v model, getModelByAlias db a = .ok model →
      goTrimSpace model.name ≠ "" → goTrimSpace model.aliasKey ≠ "" →
      goTrimSpace v = v → v ≠ "" →
      containsCaseInsensitive model.presets v = true →
      ∃ db2 updated, updateModelHandler db a (some v) = .ok db2 updated ∧
        updated.maxPreset = some v) := by
  have storeOk : ∀ db input, validateModelInput input = .ok () →
      ∃ db2 id, upsertModel db input = .ok (db2, id) ∧
        (∃ row ∈ db2.models, row.aliasKey = input.aliasKey) ∧
        (∀ row ∈ db2.models, row.aliasKey = input.aliasKey →
          row.maxPreset = nullableTrimmedString input.maxPreset) := by
    intro db input hvalid
    have hvals : ∀ v ∈ input.presets.getD [], goTrimSpace v ≠ "" := by
      unfold validateModelInput at hvalid
      by_cases h1 : goTrimSpace input.name = ""
      · rw [if_pos h1] at hvalid; cases hvalid
      · rw [if_neg h1] at hvalid
        by_cases h2 : goTrimSpace input.aliasKey = ""
        · rw [if_pos h2] at hvalid; cases hvalid
        · rw [if_neg h2] at hvalid
          exact checkPresetList_ok_values _ _ hvalid
    have newRowMem : ∀ (newRow : ModelRow) (dbm : List ModelRow),
        db.models.find? (fun m => decide (m.aliasKey = input.aliasKey)) = none →
        newRow.aliasKey = input.aliasKey →
        newRow.maxPreset = nullableTrimmedString input.maxPreset →
        dbm = db.models ++ [newRow] →
        (∃ row ∈ dbm, row.aliasKey = input.aliasKey) ∧
        (∀ row ∈ dbm, row.aliasKey = input.aliasKey →
          row.maxPreset = nullableTrimmedString input.maxPreset) := by
      intro newRow dbm hnone hnkey hnmax hdbm
      subst hdbm
      constructor
      · exact ⟨newRow, by simp, hnkey⟩
      · intro row hrow hkey
        rcases List.mem_append.mp hrow with hold | hnew
        · exfalso
          rw [List.find?_eq_none] at hnone
          exact absurd (by simpa using hkey) (by simpa using hnone row hold)
        · rw [List.mem_singleton.mp hnew]
          exact hnmax
    have updRowMem : ∀ (m : ModelRow) (dbm : List ModelRow),
        m ∈ db.models → m.aliasKey = input.aliasKey →
        dbm = db.models.map (fun r =>
          if r.aliasKey = input.aliasKey then
            { r with name := input.name, maxPreset := nullableTrimmedString input.maxPreset }
          else r) →
        (∃ row ∈ dbm, row.aliasKey = input.aliasKey) ∧
        (∀ row ∈ dbm, row.aliasKey = input.aliasKey →
          row.maxPreset = nullableTrimmedString input.maxPreset) := by
      intro m dbm hmmem hmkey hdbm
      subst hdbm
      constructor
      · refine ⟨({ m with name := input.name, maxPreset := nullableTrimmedString input.maxPreset } : ModelRow), ?_, hmkey⟩
        have heq : (fun r : ModelRow =>
            if r.aliasKey = input.aliasKey then
              { r with name := input.name, maxPreset := nullableTrimmedString input.maxPreset }
            else r) m =
            { m with name := input.name, maxPreset := nullableTrimmedString input.maxPreset } := by
          dsimp only
          rw [if_pos hmkey]
        exact heq ▸ List.mem_map_of_mem _ hmmem
      · intro row hrow hkey
        obtain ⟨r, hr, hfr⟩ := List.mem_map.mp hrow
        by_cases hcase : r.aliasKey = input.aliasKey
        · rw [if_pos hcase] at hfr
          rw [← hfr]
        · rw [if_neg hcase] at hfr
          exact absurd (hfr ▸ hkey) hcase
    unfold upsertModel
    rw [hvalid]
    dsimp only
    rcases hfind : db.models.find? (fun m => decide (m.aliasKey = input.aliasKey)) with _ | m
    · rw [hfind]
      dsimp only
      rcases hp : input.presets with _ | l
      · exact ⟨_, _, rfl, newRowMem _ _ hfind rfl rfl rfl⟩
      · obtain ⟨rows, n, hrows⟩ := insertModelPresets_ok db.nextModelId l 0 db.nextPresetId
          (by simpa [hp] using hvals)
        dsimp only
        rw [hrows]
        exact ⟨_, _, rfl, newRowMem _ _ hfind rfl rfl rfl⟩
    · have hmkey : m.aliasKey = input.aliasKey := by
        have := List.find?_some hfind
        simpa using this
      have hmmem : m ∈ db.models := List.mem_of_find?_eq_some hfind
      rw [hfind]
      dsimp only
      rcases hp : input.presets with _ | l
      · exact ⟨_, _, rfl, updRowMem m _ hmmem hmkey rfl⟩
      · obtain ⟨rows, n, hrows⟩ := insertModelPresets_ok m.id l 0 db.nextPresetId
          (by simpa [hp] using hvals)
        dsimp only
        rw [hrows]
        exact ⟨_, _, rfl, updRowMem m _ hmmem hmkey rfl⟩

  refine ⟨storeOk, ?_, ?_⟩
  · intro db a v model hget hne hcontains
    unfold updateModelHandler
    rw [hget]
    dsimp only
    rw [if_neg hne, hcontains]
    simp
  · intro db a v model hget hname halias htrim hne hcontains
    unfold updateModelHandler
    rw [hget]
    dsimp only
    rw [htrim, if_neg hne, hcontains]
    have hvalid : validateModelInput
        { name := model.name, aliasKey := model.aliasKey, presets := none,
          maxPreset := some v } = .ok () := by
      unfold validateModelInput
      rw [if_neg hname, if_neg halias]
      rfl
    obtain ⟨db2, id, hok, ⟨row, hrowmem, hrowkey⟩, hall⟩ := storeOk db
      { name := model.name, aliasKey := model.aliasKey, presets := none,
        maxPreset := some v } hvalid
    rw [hok]
    dsimp only
    rcases hfind2 : db2.models.find? (fun m => decide (m.aliasKey = model.aliasKey)) with _ | row2
    · exfalso
      rw [List.find?_eq_none] at hfind2
      exact absurd (by simpa using hrowkey) (by simpa using hfind2 row hrowmem)
    · unfold getModelByAlias
      rw [hfind2]
      refine ⟨db2, _, rfl, ?_⟩
      have h1 : row2.aliasKey = model.aliasKey := by
        have := List.find?_some hfind2
        simpa using this
      have h2 := hall row2 (List.mem_of_find?_eq_some hfind2) h1
      dsimp only at h2
      dsimp only
      rw [h2]
      unfold nullableTrimmedString
      dsimp only
      rw [htrim, if_neg hne]

/-- A one-model database for the C8 witness. -/
def c8db : DB :=
  { emptyDB with
      models := [{ id := 0, name := "S19", aliasKey := "x", maxPreset := none }],
      modelPresets := [{ id := 0, modelId := 0, value := "900", position := 0,
                         expectedPowerW := none, expectedHashrateTH := none }],
      nextModelId := 1, nextPresetId := 1 }

/-- The model view `getModelByAlias` returns for the C8 witness database. -/
def c8model : Model :=
  { name := "S19", aliasKey := "x", presets := ["900"], maxPreset := none }

/-- C8 witness: the store accepts the non-member `max_preset` of `c8input`;
the handler 400-rejects "zzz" against presets `["900"]` and accepts "900". -/
theorem C8_witness :
    ((validateModelInput c8input = .ok ()) ∧
      ∃ db2 id, upsertModel emptyDB c8input = .ok (db2, id) ∧
        (∃ row ∈ db2.models, row.aliasKey = c8input.aliasKey) ∧
        (∀ row ∈ db2.models, row.aliasKey = c8input.aliasKey →
          row.maxPreset = nullableTrimmedString c8input.maxPreset)) ∧
    (updateModelHandler c8db "x" (some "zzz") =
      .badRequest "max_preset must match an available preset" c8db) ∧
    (∃ db2 updated, updateModelHandler c8db "x" (some "900") = .ok db2 updated ∧
      updated.maxPreset = some "900") := by
  have hvalid : validateModelInput c8input = .ok () := by
    norm_num +decide [validateModelInput, checkPresetList, c8input, goTrimSpace,
      isGoSpace, String.ext_iff]
  have hget : getModelByAlias c8db "x" = .ok c8model := by
    norm_num +decide [getModelByAlias, loadPresets, presetRowLE, List.insertionSort,
      List.orderedInsert, c8db, c8model, emptyDB, String.ext_iff]
  refine ⟨⟨hvalid, C8_amended.1 emptyDB c8input hvalid⟩, ?_, ?_⟩
  · have hne : goTrimSpace "zzz" ≠ "" := by
      norm_num +decide [goTrimSpace, isGoSpace, String.ext_iff]
    have hcont : containsCaseInsensitive c8model.presets (goTrimSpace "zzz") = false := by
      norm_num +decide [containsCaseInsensitive, c8model, goTrimSpace, goToLower,
        goToLowerChar, isGoSpace, String.ext_iff]
    exact C8_amended.2.1 c8db "x" "zzz" c8model hget hne hcont
  · have htrim : goTrimSpace "900" = "900" := by
      norm_num +decide [goTrimSpace, isGoSpace, String.ext_iff]
    have hcont : containsCaseInsensitive c8model.presets "900" = true := by
      norm_num +decide [containsCaseInsensitive, c8model, goTrimSpace, goToLower,
        goToLowerChar, isGoSpace, String.ext_iff]
    refine C8_amended.2.2 c8db "x" "900" c8model hget ?_ ?_ htrim (by decide) hcont
    · norm_num +decide [c8model, goTrimSpace, isGoSpace, String.ext_iff]
    · norm_num +decide [c8model, goTrimSpace, isGoSpace, String.ext_iff]

/-! ## C9 — the preset wattage parsing rule -/

/-- A nonempty all-digit string parses to its numeric value. -/
theorem goParseFloat_digits (ds : List Char) (h1 : ds ≠ [])
    (h2 : ds.all isDigitChar = true) :
    goParseFloat ⟨ds⟩ = some ((digitsToNat ds : ℚ)) := by
  obtain ⟨c, rest, rfl⟩ : ∃ c rest, ds = c :: rest := by
    cases ds with
    | nil => exact absurd rfl h1
    | cons c rest => exact ⟨c, rest, rfl⟩
  have hall : ∀ x ∈ c :: rest, isDigitChar x = true := by
    intro x hx
    exact List.all_eq_true.mp h2 x hx
  have hc := digitChar_facts (hall c (by simp))
  have hsign : splitSign (c :: rest) = (1, c :: rest) := by
    unfold splitSign
    dsimp only
    rw [if_neg hc.2.2.1, if_neg hc.2.2.2.1]
  have hnotexp : ∀ x ∈ c :: rest, notExpChar x = true := by
    intro x hx
    unfold notExpChar isExpChar
    rw [(digitChar_facts (hall x hx)).2.2.2.2.2]
    rfl
  have htake : (c :: rest).takeWhile notExpChar = c :: rest :=
    List.takeWhile_eq_self_iff.mpr hnotexp
  have hdrop : (c :: rest).dropWhile notExpChar = [] :=
    List.dropWhile_eq_nil_iff.mpr hnotexp
  have htake2 : (c :: rest).takeWhile isDigitChar = c :: rest :=
    List.takeWhile_eq_self_iff.mpr hall
  unfold goParseFloat
  dsimp only
  rw [hsign]
  dsimp only
  rw [htake, hdrop]
  dsimp only
  rw [htake2, List.drop_length]
  dsimp only
  rw [if_neg (by simp)]
  have : digitsToNat ([] : List Char) = 0 := rfl
  rw [this]
  norm_num [applyExp10, qPow10]

/-- C9: (1) the parser accepts exactly the trimmed, lowercased values that
are nonempty, not "disabled", and whose wattage — after stripping one
trailing "w" — parses as a strictly positive number; (2) any digit string
followed by `W` parses to exactly its numeric value. -/
theorem C9_parse_wattage_rule :
    (∀ s w, parsePresetWattage s = .ok w ↔
      (goToLower (goTrimSpace s) ≠ "" ∧ goToLower (goTrimSpace s) ≠ "disabled" ∧
        goParseFloat (goTrimSuffix (goToLower (goTrimSpace s)) "w") = some w ∧ 0 < w)) ∧
    (∀ ds : List Char, ds ≠ [] → ds.all isDigitChar = true → 0 < digitsToNat ds →
      parsePresetWattage ⟨ds ++ ['W']⟩ = .ok ((digitsToNat ds : ℚ))) := by
  constructor
  · intro s w
    unfold parsePresetWattage
    dsimp only
    by_cases h1 : goToLower (goTrimSpace s) = ""
    · rw [if_pos h1]
      simp [h1]
    · rw [if_neg h1]
      by_cases h2 : goToLower (goTrimSpace s) = "disabled"
      · rw [if_pos h2]
        simp [h2]
      · rw [if_neg h2]
        rcases hp : goParseFloat (goTrimSuffix (goToLower (goTrimSpace s)) "w") with _ | q
        · simp [h1, h2, hp]
        · dsimp only
          by_cases h3 : q ≤ 0
          · rw [if_pos h3]
            simp only [hp, ne_eq, h1, not_false_eq_true, h2, Option.some.injEq, true_and]
            constructor
            · intro hcontr
              cases hcontr
            · rintro ⟨rfl, hw⟩
              exact absurd hw (not_lt.mpr h3)
          · rw [if_neg h3]
            simp only [hp, ne_eq, h1, not_false_eq_true, h2, Option.some.injEq, true_and]
            constructor
            · intro hok
              cases hok
              exact ⟨rfl, not_le.mp h3⟩
            · rintro ⟨rfl, _⟩
              rfl
  · intro ds hne hdig hpos
    have hall : ∀ x ∈ ds, isDigitChar x = true := fun x hx => List.all_eq_true.mp hdig x hx
    have hnospace : ∀ x ∈ ds ++ ['W'], isGoSpace x = false := by
      intro x hx
      rcases List.mem_append.mp hx with hx1 | hx2
      · exact (digitChar_facts (hall x hx1)).2.1
      · rw [List.mem_singleton.mp hx2]
        decide
    have htrim : goTrimSpace ⟨ds ++ ['W']⟩ = ⟨ds ++ ['W']⟩ := by
      unfold goTrimSpace
      have hd1 : (ds ++ ['W']).dropWhile isGoSpace = ds ++ ['W'] := by
        cases hcase : ds ++ ['W'] with
        | nil => rfl
        | cons y ys =>
          rw [List.dropWhile_cons_of_neg]
          rw [hnospace y (by rw [hcase]; simp)]
          simp
      rw [hd1]
      have hd2 : (ds ++ ['W']).reverse.dropWhile isGoSpace = (ds ++ ['W']).reverse := by
        cases hcase : (ds ++ ['W']).reverse with
        | nil => rfl
        | cons y ys =>
          rw [List.dropWhile_cons_of_neg]
          · rw [hnospace y (by rw [← List.mem_reverse, hcase]; simp)]
            simp
      rw [hd2, List.reverse_reverse]
    have hlower : goToLower ⟨ds ++ ['W']⟩ = ⟨ds ++ ['w']⟩ := by
      unfold goToLower
      congr 1
      rw [List.map_append]
      have mapId : ∀ l : List Char, (∀ x ∈ l, goToLowerChar x = x) →
          l.map goToLowerChar = l := by
        intro l
        induction l with
        | nil => intro _; rfl
        | cons y ys ih =>
          intro hl
          simp only [List.map_cons, hl y (by simp)]
          rw [ih (fun x hx => hl x (by simp [hx]))]
      rw [mapId ds (fun x hx => (digitChar_facts (hall x hx)).1)]
      rfl
    have hne2 : (⟨ds ++ ['w']⟩ : String) ≠ "" := by
      intro hcontr
      have := congrArg String.data hcontr
      simp at this
    have hnedis : (⟨ds ++ ['w']⟩ : String) ≠ "disabled" := by
      intro hcontr
      have hdata := congrArg String.data hcontr
      dsimp at hdata
      have hlast := congrArg List.getLast? hdata
      rw [List.getLast?_concat] at hlast
      rw [show ("disabled" : String).data.getLast? = some 'd' from rfl] at hlast
      cases hlast
    have hsuffix : goTrimSuffix ⟨ds ++ ['w']⟩ "w" = ⟨ds⟩ := by
      unfold goTrimSuffix
      rw [if_pos]
      · congr 1
        have hlen : (ds ++ ['w']).length - ("w" : String).data.length = ds.length := by
          simp
        rw [hlen, List.take_left]
      · simp
    unfold parsePresetWattage
    rw [htrim, hlower]
    dsimp only
    rw [if_neg hne2, if_neg hnedis, hsuffix]
    rw [goParseFloat_digits ds hne hdig]
    dsimp only
    rw [if_neg (not_le.mpr (by exact_mod_cast hpos))]

/-- C9 witness: "1300" followed by `W` parses to 1300. -/
theorem C9_witness :
    (['1', '3', '0', '0'] : List Char) ≠ [] ∧
      (['1', '3', '0', '0'] : List Char).all isDigitChar = true ∧
      0 < digitsToNat ['1', '3', '0', '0'] ∧
      parsePresetWattage ⟨['1', '3', '0', '0'] ++ ['W']⟩ =
        .ok ((digitsToNat ['1', '3', '0', '0'] : ℚ)) := by
  refine ⟨by decide, by decide, by decide, ?_⟩
  exact C9_parse_wattage_rule.2 ['1', '3', '0', '0'] (by decide) (by decide) (by decide)

/-! ## Association list and power-map lemmas -/

/-- Members of an insert-or-replace update. -/
theorem mem_alistInsert {α : Type} {m : List (String × α)} {k : String} {v : α}
    {x : String × α} (h : x ∈ alistInsert m k v) : x ∈ m ∨ x = (k, v) := by
  unfold alistInsert at h
  split at h
  · obtain ⟨y, hy, hyx⟩ := List.mem_map.mp h
    by_cases hk : y.1 = k
    · rw [if_pos hk] at hyx
      exact Or.inr hyx.symm
    · rw [if_neg hk] at hyx
      exact Or.inl (hyx ▸ hy)
  · rcases List.mem_append.mp h with h1 | h2
    · exact Or.inl h1
    · exact Or.inr (List.mem_singleton.mp h2)

/-- A successful lookup is a member. -/
theorem alistLookup_some_mem {α : Type} {m : List (String × α)} {k : String} {v : α}
    (h : alistLookup m k = some v) : (k, v) ∈ m := by
  unfold alistLookup at h
  rcases hf : m.find? (fun p => p.1 = k) with _ | q
  · rw [hf] at h
    cases h
  · rw [hf] at h
    have hq1 : q.1 = k := by simpa using List.find?_some hf
    have hq2 : q.2 = v := by simpa using h
    have := List.mem_of_find?_eq_some hf
    rw [← hq1, ← hq2]
    simpa using this

/-- Keys of `powerMapFromRows` are values of the given rows. -/
theorem powerMapFromRows_spec (rows : List ModelPreset) :
    ∀ p ∈ powerMapFromRows rows, ∃ r ∈ rows, r.value = p.1 := by
  unfold powerMapFromRows
  suffices hgen : ∀ (acc : List (String × ℚ)),
      (∀ p ∈ acc, ∃ r ∈ rows, r.value = p.1) →
      ∀ p ∈ rows.foldl (fun acc p =>
        match p.expectedPowerW with
        | some w => alistInsert acc p.value w
        | none => acc) acc, ∃ r ∈ rows, r.value = p.1 by
    exact hgen [] (by simp)
  have step : ∀ (rows2 : List ModelPreset) (acc : List (String × ℚ)),
      (rows2 ⊆ rows) → (∀ p ∈ acc, ∃ r ∈ rows, r.value = p.1) →
      ∀ p ∈ rows2.foldl (fun acc p =>
        match p.expectedPowerW with
        | some w => alistInsert acc p.value w
        | none => acc) acc, ∃ r ∈ rows, r.value = p.1 := by
    intro rows2
    induction rows2 with
    | nil => intro acc _ hacc p hp; exact hacc p hp
    | cons r rest ih =>
      intro acc hsub hacc p hp
      rw [List.foldl_cons] at hp
      refine ih _ (fun x hx => hsub (by simp [hx])) ?_ p hp
      intro q hq
      rcases hr : r.expectedPowerW with _ | w
      · rw [hr] at hq
        exact hacc q hq
      · rw [hr] at hq
        rcases mem_alistInsert hq with hold | hnew
        · exact hacc q hold
        · exact ⟨r, hsub (by simp), by rw [hnew]⟩
  intro acc hacc
  exact step rows acc (fun x hx => hx) hacc

/-- Keys of `powerMapFromValues` are among the given values. -/
theorem powerMapFromValues_spec (values : List String) :
    ∀ p ∈ powerMapFromValues values, p.1 ∈ values := by
  unfold powerMapFromValues
  have step : ∀ (vals2 : List String) (acc : List (String × ℚ)),
      (vals2 ⊆ values) → (∀ p ∈ acc, p.1 ∈ values) →
      ∀ p ∈ vals2.foldl (fun acc v =>
        match parsePresetWattage v with
        | .ok w => alistInsert acc v w
        | .error _ => acc) acc, p.1 ∈ values := by
    intro vals2
    induction vals2 with
    | nil => intro acc _ hacc p hp; exact hacc p hp
    | cons v rest ih =>
      intro acc hsub hacc p hp
      rw [List.foldl_cons] at hp
      refine ih _ (fun x hx => hsub (by simp [hx])) ?_ p hp
      intro q hq
      rcases hv : parsePresetWattage v with e | w
      · rw [hv] at hq
        exact hacc q hq
      · rw [hv] at hq
        rcases mem_alistInsert hq with hold | hnew
        · exact hacc q hold
        · rw [hnew]
          exact hsub (by simp)
  exact step values [] (fun x hx => hx) (by simp)

/-- Every key of a model's resolved power map is either the value of one of
that alias's preset rows or a preset value of a listed miner's model with
that alias. -/
theorem loadPresetPowerMap_spec (allPresets : List (String × List ModelPreset))
    (miners : List Miner) :
    ∀ e ∈ loadPresetPowerMap allPresets miners, ∀ q ∈ e.2,
      (∃ rows, (e.1, rows) ∈ allPresets ∧ ∃ r ∈ rows, r.value = q.1) ∨
      (∃ m ∈ miners, ∃ mv, m.model = some mv ∧ mv.aliasKey = e.1 ∧ q.1 ∈ mv.presets) := by
  unfold loadPresetPowerMap
  have step : ∀ (aps : List (String × List ModelPreset)) (acc : PresetPowerMap),
      (aps ⊆ allPresets) →
      (∀ e ∈ acc, ∀ q ∈ e.2,
        (∃ rows, (e.1, rows) ∈ allPresets ∧ ∃ r ∈ rows, r.value = q.1) ∨
        (∃ m ∈ miners, ∃ mv, m.model = some mv ∧ mv.aliasKey = e.1 ∧ q.1 ∈ mv.presets)) →
      ∀ e ∈ aps.foldl (fun acc p =>
        let powerMap := powerMapFromRows p.2
        let powerMap :=
          if powerMap.isEmpty then
            match miners.find? (fun m =>
                match m.model with
                | some mv => mv.aliasKey = p.1
                | none => false) with
            | some m =>
              match m.model with
              | some mv => powerMapFromValues mv.presets
              | none => []
            | none => []
          else powerMap
        if powerMap.isEmpty then acc else alistInsert acc p.1 powerMap) acc,
      ∀ q ∈ e.2,
        (∃ rows, (e.1, rows) ∈ allPresets ∧ ∃ r ∈ rows, r.value = q.1) ∨
        (∃ m ∈ miners, ∃ mv, m.model = some mv ∧ mv.aliasKey = e.1 ∧ q.1 ∈ mv.presets) := by
    intro aps
    induction aps with
    | nil => intro acc _ hacc e he q hq; exact hacc e he q hq
    | cons p rest ih =>
      intro acc hsub hacc e he q hq
      rw [List.foldl_cons] at he
      refine ih _ (fun x hx => hsub (by simp [hx])) ?_ e he q hq
      intro e2 he2 q2 hq2
      have goodPair : ∀ (pmv : PowerMap),
          (∀ q3 ∈ pmv,
            (∃ rows, (p.1, rows) ∈ allPresets ∧ ∃ r ∈ rows, r.value = q3.1) ∨
            (∃ m ∈ miners, ∃ mv, m.model = some mv ∧ mv.aliasKey = p.1 ∧ q3.1 ∈ mv.presets)) →
          e2 ∈ (if pmv.isEmpty then acc else alistInsert acc p.1 pmv) →
          (∃ rows, (e2.1, rows) ∈ allPresets ∧ ∃ r ∈ rows, r.value = q2.1) ∨
          (∃ m ∈ miners, ∃ mv, m.model = some mv ∧ mv.aliasKey = e2.1 ∧ q2.1 ∈ mv.presets) := by
        intro pmv hpmv hmem
        split at hmem
        · exact hacc e2 hmem q2 hq2
        · rcases mem_alistInsert hmem with hold | hnew
          · exact hacc e2 hold q2 hq2
          · subst hnew
            exact hpmv q2 hq2
      dsimp only at he2
      by_cases hempty : (powerMapFromRows p.2).isEmpty
      · rw [if_pos hempty] at he2
        rcases hfindm : miners.find? (fun m =>
            match m.model with
            | some mv => mv.aliasKey = p.1
            | none => false) with _ | mfound
        · rw [hfindm] at he2
          refine goodPair [] (by simp) ?_
          simpa using he2
        · rw [hfindm] at he2
          dsimp only at he2
          have hmem2 : mfound ∈ miners := List.mem_of_find?_eq_some hfindm
          have hpred := List.find?_some hfindm
          rcases hmodel : mfound.model with _ | mv
          · simp [hmodel] at hpred
          · rw [hmodel] at he2
            dsimp only at he2
            refine goodPair (powerMapFromValues mv.presets) ?_ he2
            intro q3 hq3
            right
            refine ⟨mfound, hmem2, mv, hmodel, ?_, powerMapFromValues_spec _ q3 hq3⟩
            simpa [hmodel] using hpred
      · rw [if_neg hempty] at he2
        refine goodPair (powerMapFromRows p.2) ?_ he2
        intro q3 hq3
        left
        exact ⟨p.2, hsub (by simp), powerMapFromRows_spec p.2 q3 hq3⟩
  intro e he
  exact step allPresets [] (fun x hx => hx) (by simp) e he

/-! ## Claim C2: increases with `max_preset` unset -/

/-- The increase-branch acceptance test of `determineTargetPreset`: a wattage
strictly above the current one, or any wattage when the current one is
unknown. -/
def higherThan (cp : Option ℚ) (w : ℚ) : Bool :=
  match cp with
  | none => true
  | some c => decide (c < w)

/-- The current wattage `determineTargetPreset` resolves for a miner from its
model's power map. -/
def currentPowerOf (m : Miner) (pm : PowerMap) : Option ℚ :=
  match m.latestStatus with
  | some st =>
    match st.preset with
    | some p => alistLookup pm p
    | none => none
  | none => none

/-- With `maxPreset` unset both guards of the increase loop are inactive, so
it returns the first entry whose wattage passes `higherThan`. -/
theorem findIncreaseTarget_none_spec (all : List PresetPower) (cp : Option ℚ) :
    ∀ (l : List PresetPower) (seen : List String),
      findIncreaseTarget none all cp l seen =
        match l.find? (fun p => higherThan cp p.power) with
        | some p => (some p.preset, some p.power)
        | none => (none, none) := by
  intro l
  induction l with
  | nil => intro seen; rfl
  | cons p rest ih =>
    intro seen
    simp only [findIncreaseTarget]
    rcases hcp : cp with _ | c
    · simp [List.find?_cons_of_pos, higherThan]
    · by_cases h : c < p.power
      · rw [if_pos (by simpa using h)]
        rw [List.find?_cons_of_pos _ (by simp [higherThan, h])]
        simp
      · rw [if_neg (by simpa using h)]
        rw [List.find?_cons_of_neg _ (by simp [higherThan, h])]
        rw [hcp] at ih
        exact ih _

/-- In a list sorted by ascending wattage, the first entry satisfying a
predicate has minimal wattage among all entries satisfying it. -/
theorem find_sorted_min (pred : PresetPower → Bool) :
    ∀ (l : List PresetPower), l.Sorted presetPowerLE →
      ∀ p, l.find? pred = some p → ∀ q ∈ l, pred q = true → p.power ≤ q.power := by
  intro l
  induction l with
  | nil => intro _ p hp; simp at hp
  | cons a t ih =>
    intro hs p hp q hq hqp
    rw [List.sorted_cons] at hs
    by_cases ha : pred a = true
    · rw [List.find?_cons_of_pos _ ha] at hp
      injection hp with hpa
      subst hpa
      rcases List.mem_cons.mp hq with rfl | hqt
      · exact le_refl _
      · exact hs.1 q hqt
    · rw [List.find?_cons_of_neg _ ha] at hp
      rcases List.mem_cons.mp hq with rfl | hqt
      · exact absurd hqp ha
      · exact ih hs.2 p hp q hqt hqp

/-- Claim C2 as stated: with `delta > 0` and the model's `max_preset` unset,
`determineTargetPreset` selects no preset. -/
def ClaimC2 : Prop :=
  ∀ (m : Miner) (delta : ℚ) (ppm : PresetPowerMap) (mv : Model)
    (r : Option String × Option ℚ),
    m.model = some mv → mv.maxPreset = none → 0 < delta →
    determineTargetPreset m delta ppm = .ok r → r.1 = none

/-- C2 counterexample model: two presets, no `max_preset`. -/
def c2model : Model :=
  { name := "S19", aliasKey := "s19", presets := ["900", "1300"], maxPreset := none }

/-- C2 counterexample miner, currently on the lower preset. -/
def c2miner : Miner :=
  { id := "aa", ip := some "10.0.0.2", apiKey := some "k", managed := true,
    model := some c2model,
    latestStatus := some { preset := some "900", hashrate := none, powerConsumption := none } }

/-- C2 counterexample power map. -/
def c2ppm : PresetPowerMap := [("s19", [("900", (900 : ℚ)), ("1300", 1300)])]

/-- C2: the claim is false. With `max_preset` unset and `delta = 3000 > 0`,
`determineTargetPreset` still selects the higher preset `"1300"`: the source's
increase loop only consults `max_preset` when it is non-nil, so increases are
allowed, not disallowed, when it is unset. -/
theorem C2_counterexample : ¬ ClaimC2 := by
  intro h
  have hres : determineTargetPreset c2miner 3000 c2ppm =
      .ok (some "1300", some 1300) := by
    norm_num +decide [determineTargetPreset, c2miner, c2model, c2ppm, alistLookup,
      List.insertionSort, List.orderedInsert, presetPowerLE, findIncreaseTarget,
      List.find?]
  have := h c2miner 3000 c2ppm c2model (some "1300", some 1300) rfl rfl
    (by norm_num) hres
  simp at this

/-- C2 amended: with the model's `max_preset` unset and `delta` not negative,
`determineTargetPreset` succeeds and selects the lowest-wattage preset of the
power map whose wattage passes `higherThan` against the current wattage —
increases are allowed without any cap — and selects nothing exactly when no
entry passes. -/
theorem C2_amended (m : Miner) (delta : ℚ) (ppm : PresetPowerMap) (mv : Model)
    (pm : PowerMap)
    (hm : m.model = some mv) (hmax : mv.maxPreset = none) (hd : ¬ delta < 0)
    (hpm : alistLookup ppm mv.aliasKey = some pm) (hne : pm.isEmpty = false) :
    ∃ ps w, determineTargetPreset m delta ppm = .ok (ps, w) ∧
      ((ps = none ∧ w = none ∧
          ∀ x ∈ pm, higherThan (currentPowerOf m pm) x.2 = false) ∨
       (∃ p q, ps = some p ∧ w = some q ∧ (p, q) ∈ pm ∧
          higherThan (currentPowerOf m pm) q = true ∧
          ∀ x ∈ pm, higherThan (currentPowerOf m pm) x.2 = true → q ≤ x.2)) := by
  unfold determineTargetPreset
  rw [hm]
  dsimp only
  rw [hpm]
  dsimp only
  rw [hne]
  simp only [Bool.false_eq_true, if_false]
  rw [if_neg hd, hmax]
  have hcp : (match m.latestStatus with
      | some st =>
        match st.preset with
        | some p => alistLookup pm p
        | none => none
      | none => none) = currentPowerOf m pm := rfl
  rw [hcp]
  rw [findIncreaseTarget_none_spec]
  have hperm := List.perm_insertionSort presetPowerLE
    (pm.map (fun p => (⟨p.1, p.2⟩ : PresetPower)))
  have hsorted := List.sorted_insertionSort presetPowerLE
    (pm.map (fun p => (⟨p.1, p.2⟩ : PresetPower)))
  rcases hfind : (List.insertionSort presetPowerLE
      (pm.map (fun p => (⟨p.1, p.2⟩ : PresetPower)))).find?
      (fun p => higherThan (currentPowerOf m pm) p.power) with _ | p
  · rw [hfind]
    refine ⟨none, none, rfl, Or.inl ⟨rfl, rfl, ?_⟩⟩
    intro x hx
    have hmemx : (⟨x.1, x.2⟩ : PresetPower) ∈ List.insertionSort presetPowerLE
        (pm.map (fun p => (⟨p.1, p.2⟩ : PresetPower))) :=
      hperm.mem_iff.mpr (List.mem_map.mpr ⟨x, hx, rfl⟩)
    have := List.find?_eq_none.mp hfind _ hmemx
    simpa using this
  · rw [hfind]
    refine ⟨some p.preset, some p.power, rfl, Or.inr ⟨p.preset, p.power, rfl, rfl, ?_, ?_, ?_⟩⟩
    · have hmemp := List.mem_of_find?_eq_some hfind
      have hmemp2 := hperm.mem_iff.mp hmemp
      rcases List.mem_map.mp hmemp2 with ⟨x, hx, hxe⟩
      have h1 : x.1 = p.preset := congrArg PresetPower.preset hxe
      have h2 : x.2 = p.power := congrArg PresetPower.power hxe
      have : (p.preset, p.power) = x := by
        rw [← h1, ← h2]
      rw [this]
      exact hx
    · have := List.find?_some hfind
      simpa using this
    · intro x hx hhx
      have hmemx : (⟨x.1, x.2⟩ : PresetPower) ∈ List.insertionSort presetPowerLE
          (pm.map (fun p => (⟨p.1, p.2⟩ : PresetPower))) :=
        hperm.mem_iff.mpr (List.mem_map.mpr ⟨x, hx, rfl⟩)
      exact find_sorted_min _ _ hsorted p hfind _ hmemx (by simpa using hhx)

/-- C2 amended at a concrete input: the miner of the counterexample, whose
model has `max_preset` unset, on preset `"900"` with `delta = 3000`. -/
theorem C2_witness :
    ∃ ps w, determineTargetPreset c2miner 3000 c2ppm = .ok (ps, w) ∧
      ((ps = none ∧ w = none ∧
          ∀ x ∈ [("900", (900 : ℚ)), ("1300", 1300)],
            higherThan (currentPowerOf c2miner [("900", (900 : ℚ)), ("1300", 1300)]) x.2 = false) ∨
       (∃ p q, ps = some p ∧ w = some q ∧ (p, q) ∈ [("900", (900 : ℚ)), ("1300", 1300)] ∧
          higherThan (currentPowerOf c2miner [("900", (900 : ℚ)), ("1300", 1300)]) q = true ∧
          ∀ x ∈ [("900", (900 : ℚ)), ("1300", 1300)],
            higherThan (currentPowerOf c2miner [("900", (900 : ℚ)), ("1300", 1300)]) x.2 = true →
              q ≤ x.2)) :=
  C2_amended c2miner 3000 c2ppm c2model [("900", (900 : ℚ)), ("1300", 1300)]
    rfl rfl (by norm_num) rfl rfl

/-! ## Claim C7: `RecordMinerStatus` atomicity -/

/-- The fan-insert loop creates one row per input fan. -/
theorem insertFans_length (statusId : ℕ) (fans : List FanStatusInput) :
    ∀ n : ℕ, (insertFans statusId fans n).1.length = fans.length := by
  induction fans with
  | nil => intro n; rfl
  | cons f rest ih => intro n; simp [insertFans, ih (n + 1)]

/-- Every row created by the fan-insert loop is attached to the status. -/
theorem insertFans_statusId (statusId : ℕ) (fans : List FanStatusInput) :
    ∀ n : ℕ, ∀ r ∈ (insertFans statusId fans n).1, r.statusId = statusId := by
  induction fans with
  | nil => intro n r hr; simp [insertFans] at hr
  | cons f rest ih =>
    intro n r hr
    simp only [insertFans] at hr
    rcases List.mem_cons.mp hr with h | h
    · subst h; rfl
    · exact ih (n + 1) r h

/-- The chip-insert loop creates one row per input chip. -/
theorem insertChips_length (chainId : ℕ) (chips : List ChipSnapshotInput) :
    ∀ n : ℕ, (insertChips chainId chips n).1.length = chips.length := by
  induction chips with
  | nil => intro n; rfl
  | cons c rest ih => intro n; simp [insertChips, ih (n + 1)]

/-- The chain-insert loop creates one chain row per input chain, each attached
to the status, and one chip row per chip of each input chain. -/
theorem insertChains_spec (minerId : String) (statusId : ℕ) (recordedAt : ℤ)
    (chains : List ChainSnapshotInput) :
    ∀ cn xn : ℕ,
      (insertChains minerId statusId recordedAt chains cn xn).1.length = chains.length ∧
      (∀ r ∈ (insertChains minerId statusId recordedAt chains cn xn).1,
        r.statusId = some statusId) ∧
      (insertChains minerId statusId recordedAt chains cn xn).2.1.length =
        (chains.map (fun c => c.chips.length)).sum := by
  induction chains with
  | nil =>
    intro cn xn
    refine ⟨rfl, ?_, rfl⟩
    intro r hr; simp [insertChains] at hr
  | cons c rest ih =>
    intro cn xn
    refine ⟨?_, ?_, ?_⟩
    · simp [insertChains,
        (ih (cn + 1) (insertChips cn c.chips xn).2).1]
    · intro r hr
      simp only [insertChains] at hr
      rcases List.mem_cons.mp hr with h | h
      · subst h; rfl
      · exact (ih (cn + 1) (insertChips cn c.chips xn).2).2.1 r h
    · simp [insertChains, insertChips_length,
        (ih (cn + 1) (insertChips cn c.chips xn).2).2.2]

/-- The status row `recordMinerStatus` inserts. -/
def statusRowOf (db : DB) (now : ℤ) (minerID : String)
    (input : MinerStatusInput) : StatusRow :=
  { id := db.nextStatusId, minerId := goTrimSpace minerID, uptime := input.uptime,
    state := nullableTrimmedString input.state,
    preset := nullableTrimmedString input.preset,
    hashrate := input.hashrate, powerUsage := input.powerUsage,
    powerConsumption := input.powerConsumption,
    recordedAt := input.recordedAt.getD now }

/-- C7: `record_status` is atomic and total on the device precondition.  With
a nonempty trimmed id: when a miner row with the trimmed id exists, the call
commits, returning the new status id, with the status row appended, one fan
row per input fan attached to it, one chain row per input chain attached to
it, one chip row per chip of each input chain, the matching miners pointing
their `latest_status_id` at the new snapshot (at least one such miner
existing), and the model tables untouched; when no such miner exists the call
fails with the not-found error, committing nothing. -/
theorem C7_record_status_atomic (db : DB) (now : ℤ) (minerID : String)
    (input : MinerStatusInput) (htid : goTrimSpace minerID ≠ "") :
    (db.miners.any (fun m => decide (m.id = goTrimSpace minerID)) = true →
      ∃ db2, recordMinerStatus db now minerID input = .ok (db2, db.nextStatusId) ∧
        db2.statuses = db.statuses ++ [statusRowOf db now minerID input] ∧
        (∃ fanRows, db2.statusFans = db.statusFans ++ fanRows ∧
          fanRows.length = input.fans.length ∧
          ∀ r ∈ fanRows, r.statusId = db.nextStatusId) ∧
        (∃ chainRows, db2.chainSnapshots = db.chainSnapshots ++ chainRows ∧
          chainRows.length = input.chains.length ∧
          ∀ r ∈ chainRows, r.statusId = some db.nextStatusId) ∧
        (∃ chipRows, db2.chainChips = db.chainChips ++ chipRows ∧
          chipRows.length = (input.chains.map (fun c => c.chips.length)).sum) ∧
        (∀ m ∈ db2.miners, m.id = goTrimSpace minerID →
          m.latestStatusId = some db.nextStatusId) ∧
        (∃ m ∈ db2.miners, m.id = goTrimSpace minerID) ∧
        db2.models = db.models ∧ db2.modelPresets = db.modelPresets) ∧
    (db.miners.any (fun m => decide (m.id = goTrimSpace minerID)) = false →
      recordMinerStatus db now minerID input = .error "miner not found") := by
  unfold recordMinerStatus
  rw [if_neg htid]
  constructor
  · intro hany
    rw [if_pos hany]
    refine ⟨_, rfl, rfl,
      ⟨(insertFans db.nextStatusId input.fans db.nextFanId).1, rfl,
        insertFans_length _ _ _, insertFans_statusId _ _ _⟩,
      ⟨(insertChains (goTrimSpace minerID) db.nextStatusId
          (input.recordedAt.getD now) input.chains db.nextChainId db.nextChipId).1, rfl,
        (insertChains_spec _ _ _ _ _ _).1, (insertChains_spec _ _ _ _ _ _).2.1⟩,
      ⟨(insertChains (goTrimSpace minerID) db.nextStatusId
          (input.recordedAt.getD now) input.chains db.nextChainId db.nextChipId).2.1, rfl,
        (insertChains_spec _ _ _ _ _ _).2.2⟩,
      ?_, ?_, rfl, rfl⟩
    · intro m hm hid
      rcases List.mem_map.mp hm with ⟨m0, hm0, rfl⟩
      by_cases h0 : m0.id = goTrimSpace minerID
      · simp [h0]
      · rw [if_neg h0] at hid ⊢
        exact absurd hid h0
    · rcases List.any_eq_true.mp hany with ⟨m0, hm0, hdec⟩
      have h0 : m0.id = goTrimSpace minerID := of_decide_eq_true hdec
      refine ⟨{ m0 with latestStatusId := some db.nextStatusId },
        ?_, by simpa using h0⟩
      have : (if m0.id = goTrimSpace minerID
          then { m0 with latestStatusId := some db.nextStatusId } else m0) =
          { m0 with latestStatusId := some db.nextStatusId } := if_pos h0
      rw [← this]
      exact List.mem_map_of_mem _ hm0
  · intro hany
    rw [hany]
    simp

/-- C7 witness database: one miner `"aa"`, empty status tables. -/
def c7db : DB :=
  { miners := [{ id := "aa", ip := none, apiKey := none, managed := true,
                 unlockPass := "p", modelId := none, latestStatusId := none }],
    statuses := [], statusFans := [], chainSnapshots := [], chainChips := [],
    models := [], modelPresets := [],
    nextStatusId := 7, nextFanId := 1, nextChainId := 2, nextChipId := 3,
    nextModelId := 0, nextPresetId := 0 }

/-- C7 witness input: one fan and one chain carrying two chips. -/
def c7input : MinerStatusInput :=
  { uptime := some 5, state := some "mining", preset := some "1300",
    hashrate := none, powerUsage := none, powerConsumption := none,
    recordedAt := none,
    fans := [{ fanIdentifier := some "f1", rpm := some 6000, status := none }],
    chains := [{ chainIdentifier := some "c1", state := none, hashrate := none,
                 pcbTempMin := none, pcbTempMax := none, chipTempMin := none,
                 chipTempMax := none, chips := [⟨none, none, none⟩, ⟨none, none, none⟩] }] }

/-- C7 at a concrete input: recording a snapshot for the existing miner
`"aa"`. -/
theorem C7_witness :
    (c7db.miners.any (fun m => decide (m.id = goTrimSpace "aa")) = true →
      ∃ db2, recordMinerStatus c7db 50 "aa" c7input = .ok (db2, c7db.nextStatusId) ∧
        db2.statuses = c7db.statuses ++ [statusRowOf c7db 50 "aa" c7input] ∧
        (∃ fanRows, db2.statusFans = c7db.statusFans ++ fanRows ∧
          fanRows.length = c7input.fans.length ∧
          ∀ r ∈ fanRows, r.statusId = c7db.nextStatusId) ∧
        (∃ chainRows, db2.chainSnapshots = c7db.chainSnapshots ++ chainRows ∧
          chainRows.length = c7input.chains.length ∧
          ∀ r ∈ chainRows, r.statusId = some c7db.nextStatusId) ∧
        (∃ chipRows, db2.chainChips = c7db.chainChips ++ chipRows ∧
          chipRows.length = (c7input.chains.map (fun c => c.chips.length)).sum) ∧
        (∀ m ∈ db2.miners, m.id = goTrimSpace "aa" →
          m.latestStatusId = some c7db.nextStatusId) ∧
        (∃ m ∈ db2.miners, m.id = goTrimSpace "aa") ∧
        db2.models = c7db.models ∧ db2.modelPresets = c7db.modelPresets) ∧
    (c7db.miners.any (fun m => decide (m.id = goTrimSpace "aa")) = false →
      recordMinerStatus c7db 50 "aa" c7input = .error "miner not found") :=
  C7_record_status_atomic c7db 50 "aa" c7input (by decide)

/-! ## Claim C5: the 30-second cooldown across ticks -/

/-- Replacement keeps the looked-up entry when the key matches. -/
theorem find_map_replace {α : Type} (k : String) (v : α) :
    ∀ m : List (String × α), m.any (fun p => p.1 = k) = true →
      (m.map (fun p => if p.1 = k then (k, v) else p)).find? (fun p => p.1 = k) =
        some (k, v) := by
  intro m
  induction m with
  | nil => intro h; simp at h
  | cons p rest ih =>
    intro h
    by_cases hp : p.1 = k
    · simp [hp]
    · rw [List.any_cons] at h
      have h2 : rest.any (fun p => p.1 = k) = true := by
        simpa [hp] using h
      simp only [List.map_cons, if_neg hp]
      rw [List.find?_cons_of_neg _ (by simpa using hp)]
      exact ih h2

/-- Replacement at one key leaves lookups at other keys unchanged. -/
theorem find_map_replace_ne {α : Type} (k k' : String) (v : α) (hne : k' ≠ k) :
    ∀ m : List (String × α),
      (m.map (fun p => if p.1 = k then (k, v) else p)).find? (fun p => p.1 = k') =
        m.find? (fun p => p.1 = k') := by
  intro m
  induction m with
  | nil => rfl
  | cons p rest ih =>
    by_cases hp : p.1 = k
    · simp only [List.map_cons, if_pos hp]
      rw [List.find?_cons_of_neg _ (by simpa using Ne.symm hne)]
      rw [List.find?_cons_of_neg _ (by simp [hp]; exact fun h => hne h.symm)]
      exact ih
    · simp only [List.map_cons, if_neg hp]
      by_cases hp' : p.1 = k'
      · rw [List.find?_cons_of_pos _ (by simpa using hp'),
          List.find?_cons_of_pos _ (by simpa using hp')]
      · rw [List.find?_cons_of_neg _ (by simpa using hp'),
          List.find?_cons_of_neg _ (by simpa using hp')]
        exact ih

/-- Appending a fresh entry makes it the looked-up one. -/
theorem find_append_single {α : Type} (k : String) (v : α) :
    ∀ m : List (String × α), m.any (fun p => p.1 = k) = false →
      (m ++ [(k, v)]).find? (fun p => p.1 = k) = some (k, v) := by
  intro m
  induction m with
  | nil => simp [List.find?]
  | cons p rest ih =>
    intro h
    rw [List.any_cons] at h
    rcases Bool.or_eq_false_iff.mp h with ⟨h1, h2⟩
    rw [List.cons_append, List.find?_cons_of_neg _ (by simpa using h1)]
    exact ih h2

/-- Appending an entry at one key leaves lookups at other keys unchanged. -/
theorem find_append_single_ne {α : Type} (k k' : String) (v : α) (hne : k' ≠ k) :
    ∀ m : List (String × α),
      (m ++ [(k, v)]).find? (fun p => p.1 = k') = m.find? (fun p => p.1 = k') := by
  intro m
  induction m with
  | nil =>
    rw [List.nil_append, List.find?_cons_of_neg _ (by simpa using Ne.symm hne)]
  | cons p rest ih =>
    by_cases hp : p.1 = k'
    · rw [List.cons_append, List.find?_cons_of_pos _ (by simpa using hp),
        List.find?_cons_of_pos _ (by simpa using hp)]
    · rw [List.cons_append, List.find?_cons_of_neg _ (by simpa using hp),
        List.find?_cons_of_neg _ (by simpa using hp)]
      exact ih

/-- Looking up the inserted key returns the inserted value. -/
theorem alistLookup_insert_self {α : Type} (m : List (String × α)) (k : String) (v : α) :
    alistLookup (alistInsert m k v) k = some v := by
  unfold alistInsert alistLookup
  by_cases h : m.any (fun p => p.1 = k) = true
  · rw [if_pos h, find_map_replace k v m h]
    rfl
  · rw [if_neg h, find_append_single k v m (Bool.not_eq_true _ ▸ h)]
    rfl

/-- Looking up any other key is unaffected by an insert. -/
theorem alistLookup_insert_ne {α : Type} (m : List (String × α)) (k k' : String)
    (v : α) (hne : k' ≠ k) :
    alistLookup (alistInsert m k v) k' = alistLookup m k' := by
  unfold alistInsert alistLookup
  by_cases h : m.any (fun p => p.1 = k) = true
  · rw [if_pos h, find_map_replace_ne k k' v hne m]
  · rw [if_neg h, find_append_single_ne k k' v hne m]

/-- The cooldown gate of the planning loop, as a predicate on the map read at
tick entry. -/
def cooldownPassed (cooldown : List (String × ℤ)) (now : ℤ) (d : String) : Prop :=
  match alistLookup cooldown d with
  | some last => presetChangeCooldown ≤ now - last
  | none => True

/-- Every event `applyPresetChange` records targets the given miner, carries
the tick instant, and is successful only when the call reports success. -/
theorem applyPresetChange_events (fwOk : String → String → Bool) (now : ℤ)
    (m : Miner) (op : Option String) (np : String) (opw npw : Option ℚ)
    (tcb tgt av : ℚ) (reason : String) :
    ∀ ev ∈ (applyPresetChange fwOk now m op np opw npw tcb tgt av reason).events,
      ev.minerId = m.id ∧ ev.recordedAt = now ∧
      (ev.success = true →
        (applyPresetChange fwOk now m op np opw npw tcb tgt av reason).ok = true) := by
  unfold applyPresetChange
  rcases m.ip with _ | ip
  · simp
  · rcases m.apiKey with _ | key
    · simp
    · by_cases hf : fwOk m.id np = true
      · simp [hf]
      · simp [hf]

/-- Invariants of the application loop: every event carries the tick instant
and a planned miner id; successful events have their miner's cooldown entry
at the tick instant in the resulting map; and every cooldown entry is either
carried over from the reference map or stamped with the tick instant. -/
theorem applyLoop_facts (fwOk : String → String → Bool) (now : ℤ) (tp ap : ℚ)
    (planned : List (String × PlanEntry)) (cd0 : List (String × ℤ)) :
    ∀ (l : List MinerEfficiency) (st : ApplyState),
      (∀ ev ∈ st.events, ev.recordedAt = now ∧
        ∃ e, alistLookup planned ev.minerId = some e) →
      (∀ ev ∈ st.events, ev.success = true →
        alistLookup st.cooldown ev.minerId = some now) →
      (∀ d, alistLookup st.cooldown d = alistLookup cd0 d ∨
        alistLookup st.cooldown d = some now) →
      (∀ ev ∈ (applyLoop fwOk now tp ap planned l st).events,
        ev.recordedAt = now ∧ ∃ e, alistLookup planned ev.minerId = some e) ∧
      (∀ ev ∈ (applyLoop fwOk now tp ap planned l st).events, ev.success = true →
        alistLookup (applyLoop fwOk now tp ap planned l st).cooldown ev.minerId = some now) ∧
      (∀ d, alistLookup (applyLoop fwOk now tp ap planned l st).cooldown d =
          alistLookup cd0 d ∨
        alistLookup (applyLoop fwOk now tp ap planned l st).cooldown d = some now) := by
  intro l
  induction l with
  | nil => intro st h1 h2 h3; exact ⟨h1, h2, h3⟩
  | cons me rest ih =>
    intro st h1 h2 h3
    rw [applyLoop]
    rcases hlk : alistLookup planned me.miner.id with _ | entry
    · exact ih st h1 h2 h3
    · dsimp only
      have hres := applyPresetChange_events fwOk now me.miner me.currentPreset
        entry.targetPreset me.currentPower entry.targetPower st.current tp ap
        "automatic_balance"
      have h1' : ∀ ev ∈ st.events ++ (applyPresetChange fwOk now me.miner
          me.currentPreset entry.targetPreset me.currentPower entry.targetPower
          st.current tp ap "automatic_balance").events,
          ev.recordedAt = now ∧ ∃ e, alistLookup planned ev.minerId = some e := by
        intro ev hev
        rcases List.mem_append.mp hev with h | h
        · exact h1 ev h
        · rcases hres ev h with ⟨hid, hat, _⟩
          exact ⟨hat, ⟨entry, by rw [hid]; exact hlk⟩⟩
      by_cases hok : (applyPresetChange fwOk now me.miner me.currentPreset
          entry.targetPreset me.currentPower entry.targetPower st.current tp ap
          "automatic_balance").ok = true
      · rw [if_pos hok]
        have hcd2 : ∀ ev ∈ st.events ++ (applyPresetChange fwOk now me.miner
            me.currentPreset entry.targetPreset me.currentPower entry.targetPower
            st.current tp ap "automatic_balance").events, ev.success = true →
            alistLookup (alistInsert st.cooldown me.miner.id now) ev.minerId = some now := by
          intro ev hev hs
          by_cases hd : ev.minerId = me.miner.id
          · rw [hd, alistLookup_insert_self]
          · rw [alistLookup_insert_ne _ _ _ _ hd]
            rcases List.mem_append.mp hev with h | h
            · exact h2 ev h hs
            · exact absurd ((hres ev h).1) hd
        have hcd3 : ∀ d, alistLookup (alistInsert st.cooldown me.miner.id now) d =
            alistLookup cd0 d ∨
            alistLookup (alistInsert st.cooldown me.miner.id now) d = some now := by
          intro d
          by_cases hd : d = me.miner.id
          · right; rw [hd, alistLookup_insert_self]
          · rw [alistLookup_insert_ne _ _ _ _ hd]
            exact h3 d
        have hgen : ∀ st3 : ApplyState,
            st3.events = st.events ++ (applyPresetChange fwOk now me.miner
              me.currentPreset entry.targetPreset me.currentPower entry.targetPower
              st.current tp ap "automatic_balance").events →
            st3.cooldown = alistInsert st.cooldown me.miner.id now →
            (∀ ev ∈ (if |st3.delta| < 2000 then st3
                else applyLoop fwOk now tp ap planned rest st3).events,
              ev.recordedAt = now ∧ ∃ e, alistLookup planned ev.minerId = some e) ∧
            (∀ ev ∈ (if |st3.delta| < 2000 then st3
                else applyLoop fwOk now tp ap planned rest st3).events, ev.success = true →
              alistLookup (if |st3.delta| < 2000 then st3
                else applyLoop fwOk now tp ap planned rest st3).cooldown ev.minerId = some now) ∧
            (∀ d, alistLookup (if |st3.delta| < 2000 then st3
                else applyLoop fwOk now tp ap planned rest st3).cooldown d =
                alistLookup cd0 d ∨
              alistLookup (if |st3.delta| < 2000 then st3
                else applyLoop fwOk now tp ap planned rest st3).cooldown d = some now) := by
          intro st3 he hc
          by_cases hδ : |st3.delta| < 2000
          · rw [if_pos hδ]
            exact ⟨by rw [he]; exact h1', by rw [he, hc]; exact hcd2, by rw [hc]; exact hcd3⟩
          · rw [if_neg hδ]
            exact ih st3 (by rw [he]; exact h1') (by rw [he, hc]; exact hcd2)
              (by rw [hc]; exact hcd3)
        rcases hcp : me.currentPower with _ | c <;>
          rcases htw : entry.targetPower with _ | tw <;>
          rw [hcp, htw] at hgen <;>
          exact hgen _ rfl rfl
      · rw [if_neg hok]
        refine ih _ h1' ?_ h3
        intro ev hev hs
        rcases List.mem_append.mp hev with h | h
        · exact h2 ev h hs
        · exact absurd ((hres ev h).2.2 hs) hok

/-- Every miner id keyed in the plan passed the cooldown gate at tick
entry. -/
theorem planLoop_gate (cooldown : List (String × ℤ)) (now : ℤ) (ppm : PresetPowerMap) :
    ∀ (l : List MinerEfficiency) (st : PlanState),
      (∀ p ∈ st.planned, cooldownPassed cooldown now p.1) →
      ∀ p ∈ (planLoop cooldown now ppm l st).planned, cooldownPassed cooldown now p.1 := by
  intro l
  induction l with
  | nil => intro st hst; exact hst
  | cons me rest ih =>
    intro st hst
    rw [planLoop]
    by_cases hc : (match alistLookup cooldown me.miner.id with
        | some last => decide (now - last < presetChangeCooldown)
        | none => false) = true
    · rw [if_pos hc]; exact ih st hst
    · rw [if_neg hc]
      have hgate : cooldownPassed cooldown now me.miner.id := by
        unfold cooldownPassed
        rcases hlk : alistLookup cooldown me.miner.id with _ | last
        · trivial
        · rw [hlk] at hc
          simp only [decide_eq_true_eq] at hc
          omega
      rcases hdt : determineTargetPreset me.miner st.delta ppm with e | pr
      · exact ih st hst
      · rcases pr with ⟨tp, tw⟩
        rcases tp with _ | t
        · exact ih st hst
        · dsimp only
          by_cases he : me.currentPreset = some t
          · rw [if_pos he]; exact ih st hst
          · rw [if_neg he]
            have hinv2 : ∀ p ∈ alistInsert st.planned me.miner.id ⟨t, tw⟩,
                cooldownPassed cooldown now p.1 := by
              intro p hp
              rcases mem_alistInsert hp with h | h
              · exact hst p h
              · rw [h]; exact hgate
            have hgen : ∀ st2 : PlanState,
                st2.planned = alistInsert st.planned me.miner.id ⟨t, tw⟩ →
                ∀ p ∈ (if |st2.delta| < 2000 then st2
                    else planLoop cooldown now ppm rest st2).planned,
                  cooldownPassed cooldown now p.1 := by
              intro st2 hpl
              by_cases hδ : |st2.delta| < 2000
              · rw [if_pos hδ, hpl]; exact hinv2
              · rw [if_neg hδ]; exact ih st2 (hpl ▸ hinv2)
            rcases me.currentPower with _ | c <;>
              rcases tw with _ | twv <;>
              exact hgen _ rfl

/-- Per-tick cooldown facts of `balance`: every recorded event carries the
tick instant and passed the cooldown gate against the entry map; successful
events leave their miner's cooldown entry at the tick instant; and the
outgoing map differs from the incoming one only by entries stamped with the
tick instant. -/
theorem balance_cooldown_facts (inp : TickInput) (out : TickOutput)
    (hb : balance inp = .ok out) :
    (∀ ev ∈ out.events,
      ev.recordedAt = inp.now ∧ cooldownPassed inp.cooldown inp.now ev.minerId) ∧
    (∀ ev ∈ out.events, ev.success = true →
      alistLookup out.cooldownOut ev.minerId = some inp.now) ∧
    (∀ d, alistLookup out.cooldownOut d = alistLookup inp.cooldown d ∨
      alistLookup out.cooldownOut d = some inp.now) := by
  unfold balance at hb
  rcases hr : inp.reading with _ | r
  · rw [hr] at hb
    simp only [Except.ok.injEq] at hb
    subst hb
    refine ⟨by simp, by simp, fun d => Or.inl rfl⟩
  · rw [hr] at hb
    dsimp only at hb
    rcases hm : inp.marginSetting with _ | ms
    · rw [hm] at hb
      exact absurd hb (by simp)
    · rw [hm] at hb
      dsimp only at hb
      split at hb
      · simp only [Except.ok.injEq] at hb
        subst hb
        refine ⟨by simp, by simp, fun d => Or.inl rfl⟩
      · simp only [Except.ok.injEq] at hb
        subst hb
        have happly := applyLoop_facts inp.fwOk inp.now
          (r.totalGeneration * (1 - (match jsonParseNumber ms with
            | some v => v
            | none => 10) / 100) * 1000)
          (r.availablePower * 1000)
          (planLoop inp.cooldown inp.now
            (loadPresetPowerMap inp.allPresets (filterOnlineMiners inp.miners))
            (if r.totalGeneration * (1 - (match jsonParseNumber ms with
                | some v => v
                | none => 10) / 100) * 1000 -
                calculateCurrentConsumption (filterOnlineMiners inp.miners)
                  (loadPresetPowerMap inp.allPresets (filterOnlineMiners inp.miners)) < 0
              then List.insertionSort effGE (calculateEfficiencies
                (filterEligibleMiners inp.miners)
                (loadPresetPowerMap inp.allPresets (filterOnlineMiners inp.miners)))
              else List.insertionSort effLE (calculateEfficiencies
                (filterEligibleMiners inp.miners)
                (loadPresetPowerMap inp.allPresets (filterOnlineMiners inp.miners))))
            { planned := [],
              expected := calculateCurrentConsumption (filterOnlineMiners inp.miners)
                (loadPresetPowerMap inp.allPresets (filterOnlineMiners inp.miners)),
              delta := r.totalGeneration * (1 - (match jsonParseNumber ms with
                | some v => v
                | none => 10) / 100) * 1000 -
                calculateCurrentConsumption (filterOnlineMiners inp.miners)
                  (loadPresetPowerMap inp.allPresets (filterOnlineMiners inp.miners)) }).planned
          inp.cooldown
          (if r.totalGeneration * (1 - (match jsonParseNumber ms with
              | some v => v
              | none => 10) / 100) * 1000 -
              calculateCurrentConsumption (filterOnlineMiners inp.miners)
                (loadPresetPowerMap inp.allPresets (filterOnlineMiners inp.miners)) < 0
            then List.insertionSort effGE (calculateEfficiencies
              (filterEligibleMiners inp.miners)
              (loadPresetPowerMap inp.allPresets (filterOnlineMiners inp.miners)))
            else List.insertionSort effLE (calculateEfficiencies
              (filterEligibleMiners inp.miners)
              (loadPresetPowerMap inp.allPresets (filterOnlineMiners inp.miners))))
          { events := [], calls := [], cooldown := inp.cooldown,
            delta := r.totalGeneration * (1 - (match jsonParseNumber ms with
              | some v => v
              | none => 10) / 100) * 1000 -
              calculateCurrentConsumption (filterOnlineMiners inp.miners)
                (loadPresetPowerMap inp.allPresets (filterOnlineMiners inp.miners)),
            current := calculateCurrentConsumption (filterOnlineMiners inp.miners)
              (loadPresetPowerMap inp.allPresets (filterOnlineMiners inp.miners)),
            adjusted := 0 }
          (by intro ev hev; simp at hev)
          (by intro ev hev; simp at hev)
          (fun d => Or.inl rfl)
        have hplan := planLoop_gate inp.cooldown inp.now
          (loadPresetPowerMap inp.allPresets (filterOnlineMiners inp.miners))
          (if r.totalGeneration * (1 - (match jsonParseNumber ms with
              | some v => v
              | none => 10) / 100) * 1000 -
              calculateCurrentConsumption (filterOnlineMiners inp.miners)
                (loadPresetPowerMap inp.allPresets (filterOnlineMiners inp.miners)) < 0
            then List.insertionSort effGE (calculateEfficiencies
              (filterEligibleMiners inp.miners)
              (loadPresetPowerMap inp.allPresets (filterOnlineMiners inp.miners)))
            else List.insertionSort effLE (calculateEfficiencies
              (filterEligibleMiners inp.miners)
              (loadPresetPowerMap inp.allPresets (filterOnlineMiners inp.miners))))
          { planned := [],
            expected := calculateCurrentConsumption (filterOnlineMiners inp.miners)
              (loadPresetPowerMap inp.allPresets (filterOnlineMiners inp.miners)),
            delta := r.totalGeneration * (1 - (match jsonParseNumber ms with
              | some v => v
              | none => 10) / 100) * 1000 -
              calculateCurrentConsumption (filterOnlineMiners inp.miners)
                (loadPresetPowerMap inp.allPresets (filterOnlineMiners inp.miners)) }
          (by intro p hp; simp at hp)
        refine ⟨?_, happly.2.1, happly.2.2⟩
        intro ev hev
        rcases happly.1 ev hev with ⟨hat, e, hlk⟩
        exact ⟨hat, by
          have hmem := alistLookup_some_mem hlk
          have := hplan _ hmem
          exact this⟩

/-- Per-tick data of a balancer run: everything a tick reads except the
cooldown map, which the run threads from tick to tick (it lives on the
balancer between ticks). -/
structure TickData where
  reading : Option PlantReading
  marginSetting : Option String
  miners : List Miner
  allPresets : List (String × List ModelPreset)
  now : ℤ
  fwOk : String → String → Bool

/-- The input of one tick of a run, given the threaded cooldown map. -/
def stepInput (cd : List (String × ℤ)) (td : TickData) : TickInput :=
  { reading := td.reading, marginSetting := td.marginSetting, miners := td.miners,
    allPresets := td.allPresets, cooldown := cd, now := td.now, fwOk := td.fwOk }

/-- A run of `balance` ticks: collected events and final cooldown map.  A
tick that returns an error records nothing and leaves the map unchanged. -/
def runTicks : List TickData → List (String × ℤ) →
    List PowerBalanceEventInput × List (String × ℤ)
  | [], cd => ([], cd)
  | td :: rest, cd =>
    match balance (stepInput cd td) with
    | .error _ => runTicks rest cd
    | .ok out =>
      let tail := runTicks rest out.cooldownOut
      (out.events ++ tail.1, tail.2)

/-- Every event of a run is recorded at the instant of one of its ticks. -/
theorem runTicks_times :
    ∀ (tds : List TickData) (cd : List (String × ℤ)),
      ∀ ev ∈ (runTicks tds cd).1, ∃ td ∈ tds, ev.recordedAt = td.now := by
  intro tds
  induction tds with
  | nil => intro cd ev hev; simp [runTicks] at hev
  | cons td rest ih =>
    intro cd ev hev
    rw [runTicks] at hev
    rcases hb : balance (stepInput cd td) with e | out
    · rw [hb] at hev
      rcases ih cd ev hev with ⟨td2, h1, h2⟩
      exact ⟨td2, List.mem_cons_of_mem _ h1, h2⟩
    · rw [hb] at hev
      dsimp only at hev
      rcases List.mem_append.mp hev with h | h
      · exact ⟨td, List.mem_cons_self _ _,
          ((balance_cooldown_facts _ _ hb).1 ev h).1⟩
      · rcases ih out.cooldownOut ev h with ⟨td2, h1, h2⟩
        exact ⟨td2, List.mem_cons_of_mem _ h1, h2⟩

/-- If a run starts with a cooldown entry `v` for miner `d` and every tick is
at or after `v`, every event of the run for `d` is recorded at least the
cooldown interval after `v`. -/
theorem runTicks_gate :
    ∀ (tds : List TickData) (cd : List (String × ℤ)) (d : String) (v : ℤ),
      alistLookup cd d = some v →
      (∀ td ∈ tds, v ≤ td.now) →
      tds.Pairwise (fun a b => a.now ≤ b.now) →
      ∀ ev ∈ (runTicks tds cd).1, ev.minerId = d →
        v + presetChangeCooldown ≤ ev.recordedAt := by
  intro tds
  induction tds with
  | nil => intro cd d v _ _ _ ev hev; simp [runTicks] at hev
  | cons td rest ih =>
    intro cd d v hlk hle hpw ev hev hd
    rcases List.pairwise_cons.mp hpw with ⟨hhead, htail⟩
    rw [runTicks] at hev
    rcases hb : balance (stepInput cd td) with e | out
    · rw [hb] at hev
      exact ih cd d v hlk (fun t ht => hle t (List.mem_cons_of_mem _ ht)) htail ev hev hd
    · rw [hb] at hev
      dsimp only at hev
      rcases List.mem_append.mp hev with h | h
      · rcases (balance_cooldown_facts _ _ hb).1 ev h with ⟨hat, hcp⟩
        rw [hd] at hcp
        unfold cooldownPassed at hcp
        rw [show (stepInput cd td).cooldown = cd from rfl] at hcp
        rw [hlk] at hcp
        have hsn : (stepInput cd td).now = td.now := rfl
        rw [hsn] at hcp
        rw [hat, hsn]
        omega
      · rcases (balance_cooldown_facts _ _ hb).2.2 d with hsame | hnowd
        · exact ih out.cooldownOut d v
            (by rw [hsame]; exact hlk)
            (fun t ht => hle t (List.mem_cons_of_mem _ ht)) htail ev h hd
        · have := ih out.cooldownOut d (stepInput cd td).now hnowd
            (fun t ht => hhead t ht) htail ev h hd
          have hv : v ≤ td.now := hle td (List.mem_cons_self _ _)
          rw [show (stepInput cd td).now = td.now from rfl] at this
          omega

/-- C5: across any run of balancer ticks at nondecreasing instants, two
successful balance events for the same miner recorded at `t1 < t2` satisfy
`t1 + 30 ≤ t2`: the cooldown entry written at a success makes the planning
gate skip the miner for 30 seconds, and only successes write the entry. -/
theorem C5_cooldown (tds : List TickData) (cd0 : List (String × ℤ))
    (hmono : tds.Pairwise (fun a b => a.now ≤ b.now))
    (e1 e2 : PowerBalanceEventInput)
    (h1 : e1 ∈ (runTicks tds cd0).1) (h2 : e2 ∈ (runTicks tds cd0).1)
    (hd : e1.minerId = e2.minerId)
    (hs1 : e1.success = true) (hs2 : e2.success = true)
    (hlt : e1.recordedAt < e2.recordedAt) :
    e1.recordedAt + presetChangeCooldown ≤ e2.recordedAt := by
  induction tds generalizing cd0 with
  | nil => simp [runTicks] at h1
  | cons td rest ih =>
    rcases List.pairwise_cons.mp hmono with ⟨hhead, htail⟩
    rw [runTicks] at h1 h2
    rcases hb : balance (stepInput cd0 td) with e | out
    · rw [hb] at h1 h2
      exact ih cd0 htail h1 h2
    · rw [hb] at h1 h2
      dsimp only at h1 h2
      rcases List.mem_append.mp h1 with ha1 | ha1 <;>
        rcases List.mem_append.mp h2 with ha2 | ha2
      · have ht1 := ((balance_cooldown_facts _ _ hb).1 e1 ha1).1
        have ht2 := ((balance_cooldown_facts _ _ hb).1 e2 ha2).1
        rw [ht1, ht2] at hlt
        exact absurd hlt (lt_irrefl _)
      · have ht1 := ((balance_cooldown_facts _ _ hb).1 e1 ha1).1
        have hcd := (balance_cooldown_facts _ _ hb).2.1 e1 ha1 hs1
        rw [hd] at hcd
        have := runTicks_gate rest out.cooldownOut e2.minerId (stepInput cd0 td).now
          hcd (fun t ht => hhead t ht) htail e2 ha2 rfl
        rw [ht1]
        rw [show (stepInput cd0 td).now = td.now from rfl] at this ⊢
        exact this
      · have ht2 := ((balance_cooldown_facts _ _ hb).1 e2 ha2).1
        rcases runTicks_times rest out.cooldownOut e1 ha1 with ⟨td2, hmem, ht1⟩
        have hle := hhead td2 hmem
        rw [ht1, ht2, show (stepInput cd0 td).now = td.now from rfl] at hlt
        omega
      · exact ih out.cooldownOut htail ha1 ha2

/-- C5 witness model. -/
def c5model : Model :=
  { name := "S19", aliasKey := "s19", presets := ["900", "1300", "3400"],
    maxPreset := some "900" }

/-- C5 witness preset rows. -/
def c5rows : List ModelPreset :=
  [{ value := "900", expectedPowerW := some 900, expectedHashrateTH := none },
   { value := "1300", expectedPowerW := some 1300, expectedHashrateTH := none },
   { value := "3400", expectedPowerW := some 3400, expectedHashrateTH := none }]

/-- C5 witness miner, on the top preset with zero generation available. -/
def c5miner : Miner :=
  { id := "aa", ip := some "10.0.0.5", apiKey := some "k", managed := true,
    model := some c5model,
    latestStatus := some { preset := some "3400", hashrate := some 100000000000000,
                           powerConsumption := some 3400 } }

/-- C5 witness tick data at a given instant. -/
def c5td (t : ℤ) : TickData :=
  { reading := some { totalGeneration := 0, availablePower := 0 },
    marginSetting := some "10", miners := [c5miner], allPresets := [("s19", c5rows)],
    now := t, fwOk := fun _ _ => true }

/-- The successful reduction event each C5 witness tick records. -/
def c5ev (t : ℤ) : PowerBalanceEventInput :=
  { minerId := "aa", oldPreset := some "3400", newPreset := some "1300",
    oldPower := some 3400, newPower := some 1300, reason := "automatic_balance",
    totalConsumptionBefore := some 3400, totalConsumptionAfter := some 1300,
    availablePower := some 0, targetPower := some 0,
    success := true, errorMessage := none, recordedAt := t }

set_option maxHeartbeats 4000000 in
/-- C5 at a concrete run: two ticks 40 seconds apart, each recording a
successful event for miner `"aa"`. -/
theorem C5_witness :
    (c5ev 1000).recordedAt + presetChangeCooldown ≤ (c5ev 1040).recordedAt := by
  have hrun : (runTicks [c5td 1000, c5td 1040] []).1 = [c5ev 1000, c5ev 1040] := by
    norm_num +decide [runTicks, stepInput, balance, c5td, c5miner, c5model, c5rows, c5ev,
      planLoop, applyLoop, applyPresetChange,
      determineTargetPreset, findReduceTarget, findIncreaseTarget, calculateEfficiencies,
      minerEfficiencyOf, calculateCurrentConsumption, minerConsumption, loadPresetPowerMap,
      powerMapFromRows, powerMapFromValues, filterEligibleMiners, filterOnlineMiners,
      alistLookup, alistInsert, jsonParseNumber, isJsonSpace, isDigitChar, digitsToNat,
      digitVal, qPow10, applyExp10, presetChangeCooldown, List.insertionSort,
      List.orderedInsert, presetPowerLE, effLE, effGE, List.find?, List.filter,
      List.filterMap, List.foldl, List.takeWhile, List.dropWhile, String.ext_iff]
  exact C5_cooldown [c5td 1000, c5td 1040] [] (by norm_num [List.pairwise_cons, c5td])
    (c5ev 1000) (c5ev 1040)
    (by rw [hrun]; simp) (by rw [hrun]; simp)
    rfl rfl rfl (by norm_num [c5ev])

/-! ## Claim C1: membership and the `max_preset` cap for successful events -/

/-- `calculateEfficiencies` copies the miner into the record it builds. -/
theorem minerEfficiencyOf_miner (ppm : PresetPowerMap) (m0 : Miner)
    (me : MinerEfficiency) (h : minerEfficiencyOf ppm m0 = some me) :
    me.miner = m0 := by
  unfold minerEfficiencyOf at h
  split at h
  · dsimp only at h
    split at h
    · exact absurd h (by simp)
    · injection h with h
      rw [← h]
  · exact absurd h (by simp)

/-- The element of the sorted wattage list used by `determineTargetPreset`
corresponds to an entry of the model's power map. -/
theorem mem_sorted_pm (pm : PowerMap) (p : PresetPower)
    (hp : p ∈ List.insertionSort presetPowerLE
      (pm.map (fun x => (⟨x.1, x.2⟩ : PresetPower)))) :
    (p.preset, p.power) ∈ pm := by
  have hp2 := (List.perm_insertionSort presetPowerLE
    (pm.map (fun x => (⟨x.1, x.2⟩ : PresetPower)))).mem_iff.mp hp
  rcases List.mem_map.mp hp2 with ⟨x, hx, hxe⟩
  have h1 : x.1 = p.preset := congrArg PresetPower.preset hxe
  have h2 : x.2 = p.power := congrArg PresetPower.power hxe
  have : (p.preset, p.power) = x := by rw [← h1, ← h2]
  rw [this]
  exact hx

/-- The reduce branch returns an entry of the scanned list together with its
wattage. -/
theorem findReduceTarget_mem (cp : Option ℚ) :
    ∀ (l : List PresetPower) (t : String) (w : Option ℚ),
      findReduceTarget cp l = (some t, w) →
      ∃ p ∈ l, p.preset = t ∧ w = some p.power := by
  intro l
  induction l with
  | nil => intro t w h; exact absurd h (by simp [findReduceTarget])
  | cons p rest ih =>
    intro t w h
    simp only [findReduceTarget] at h
    split at h
    · injection h with h1 h2
      injection h1 with h1
      exact ⟨p, List.mem_cons_self _ _, h1, h2.symm⟩
    · rcases ih t w h with ⟨p2, hp2, h1, h2⟩
      exact ⟨p2, List.mem_cons_of_mem _ hp2, h1, h2⟩

/-- The increase branch returns an entry of the scanned list together with
its wattage, and that wattage never exceeds the wattage of any entry of the
full list named by `max_preset`. -/
theorem findIncreaseTarget_mem_cap (maxP : Option String) (all : List PresetPower)
    (cp : Option ℚ) :
    ∀ (l : List PresetPower) (seen : List String) (t : String) (w : Option ℚ),
      findIncreaseTarget maxP all cp l seen = (some t, w) →
      ∃ p ∈ l, p.preset = t ∧ w = some p.power ∧
        ∀ mp, maxP = some mp → ∀ pp ∈ all, pp.preset = mp → p.power ≤ pp.power := by
  intro l
  induction l with
  | nil => intro seen t w h; exact absurd h (by simp [findIncreaseTarget])
  | cons p rest ih =>
    intro seen t w h
    simp only [findIncreaseTarget] at h
    split at h
    · split at h
      · rcases ih _ t w h with ⟨p2, hp2, h1, h2, h3⟩
        exact ⟨p2, List.mem_cons_of_mem _ hp2, h1, h2, h3⟩
      · split at h
        · rcases ih _ t w h with ⟨p2, hp2, h1, h2, h3⟩
          exact ⟨p2, List.mem_cons_of_mem _ hp2, h1, h2, h3⟩
        · injection h with h1 h2
          injection h1 with h1
          refine ⟨p, List.mem_cons_self _ _, h1, h2.symm, ?_⟩
          intro mp hmp pp hpp hppm
          rename_i hskip hexceeds
          rw [hmp] at hexceeds
          have hfalse : all.any
              (fun q => decide (q.preset = mp) && decide (q.power < p.power)) = false := by
            by_cases hx : all.any
                (fun q => decide (q.preset = mp) && decide (q.power < p.power)) = true
            · exact absurd (by simpa using hx) hexceeds
            · simpa using hx
          have := List.any_eq_false.mp hfalse pp hpp
          simp only [hppm, Bool.and_eq_true, decide_eq_true_eq] at this
          exact le_of_not_lt (fun hh => this ⟨trivial, hh⟩)
    · rcases ih _ t w h with ⟨p2, hp2, h1, h2, h3⟩
      exact ⟨p2, List.mem_cons_of_mem _ hp2, h1, h2, h3⟩

/-- A successful `determineTargetPreset` presupposes a modelled miner with a
nonempty power map. -/
theorem determineTargetPreset_ok_inv (m : Miner) (delta : ℚ) (ppm : PresetPowerMap)
    (r : Option String × Option ℚ)
    (h : determineTargetPreset m delta ppm = .ok r) :
    ∃ mv pm, m.model = some mv ∧ alistLookup ppm mv.aliasKey = some pm ∧
      pm.isEmpty = false := by
  unfold determineTargetPreset at h
  rcases hm : m.model with _ | mv
  · rw [hm] at h; exact absurd h (by simp)
  · rw [hm] at h
    dsimp only at h
    rcases hlk : alistLookup ppm mv.aliasKey with _ | pm
    · rw [hlk] at h; exact absurd h (by simp)
    · rw [hlk] at h
      dsimp only at h
      by_cases hemp : pm.isEmpty = true
      · rw [if_pos hemp] at h; exact absurd h (by simp)
      · exact ⟨mv, pm, rfl, hlk, by simpa using hemp⟩

/-- `determineTargetPreset` selects a preset of the model's power map, with
its wattage, and in the increase direction the wattage is capped by any
power-map entry named by `max_preset`; no such cap constrains reductions. -/
theorem determineTargetPreset_spec (m : Miner) (delta : ℚ) (ppm : PresetPowerMap)
    (mv : Model) (pm : PowerMap) (tp : String) (w : Option ℚ)
    (hm : m.model = some mv) (hpm : alistLookup ppm mv.aliasKey = some pm)
    (hdt : determineTargetPreset m delta ppm = .ok (some tp, w)) :
    (∃ q, (tp, q) ∈ pm ∧ w = some q) ∧
    (¬ delta < 0 → ∀ mp, mv.maxPreset = some mp →
      ∀ qm, (mp, qm) ∈ pm → ∀ qc, w = some qc → qc ≤ qm) := by
  unfold determineTargetPreset at hdt
  rw [hm] at hdt
  dsimp only at hdt
  rw [hpm] at hdt
  dsimp only at hdt
  by_cases hemp : pm.isEmpty = true
  · rw [if_pos hemp] at hdt; exact absurd hdt (by simp)
  · rw [if_neg hemp] at hdt
    by_cases hd : delta < 0
    · rw [if_pos hd] at hdt
      simp only [Except.ok.injEq] at hdt
      rcases findReduceTarget_mem _ _ tp w hdt with ⟨p, hp, h1, h2⟩
      refine ⟨⟨p.power, ?_, h2⟩, fun hnd => absurd hd hnd⟩
      rw [← h1]
      exact mem_sorted_pm pm p (List.mem_reverse.mp hp)
    · rw [if_neg hd] at hdt
      simp only [Except.ok.injEq] at hdt
      rcases findIncreaseTarget_mem_cap mv.maxPreset _ _ _ [] tp w hdt with
        ⟨p, hp, h1, h2, h3⟩
      refine ⟨⟨p.power, ?_, h2⟩, ?_⟩
      · rw [← h1]
        exact mem_sorted_pm pm p hp
      · intro _ mp hmp qm hqm qc hqc
        have hqc2 : qc = p.power := by
          rw [h2] at hqc
          injection hqc.symm
        rw [hqc2]
        refine h3 mp hmp ⟨mp, qm⟩ ?_ rfl
        have : (⟨mp, qm⟩ : PresetPower) ∈ pm.map (fun x => (⟨x.1, x.2⟩ : PresetPower)) :=
          List.mem_map.mpr ⟨(mp, qm), hqm, rfl⟩
        exact (List.perm_insertionSort presetPowerLE _).mem_iff.mpr this

/-- What the plan records about a miner id: an eligible miner with that id
whose model's power map contains the planned target preset. -/
def plannedOK (eligible : List Miner) (ppm : PresetPowerMap)
    (pr : String × PlanEntry) : Prop :=
  ∃ m ∈ eligible, m.id = pr.1 ∧ ∃ mv pm q, m.model = some mv ∧
    alistLookup ppm mv.aliasKey = some pm ∧ (pr.2.targetPreset, q) ∈ pm

/-- Every plan entry records an eligible miner and a target preset from its
model's power map. -/
theorem planLoop_planned (cooldown : List (String × ℤ)) (now : ℤ)
    (ppm : PresetPowerMap) (eligible : List Miner) :
    ∀ (l : List MinerEfficiency) (st : PlanState),
      (∀ me ∈ l, me.miner ∈ eligible) →
      (∀ pr ∈ st.planned, plannedOK eligible ppm pr) →
      ∀ pr ∈ (planLoop cooldown now ppm l st).planned, plannedOK eligible ppm pr := by
  intro l
  induction l with
  | nil => intro st _ hst; exact hst
  | cons me rest ih =>
    intro st hl hst
    have hl2 : ∀ me2 ∈ rest, me2.miner ∈ eligible :=
      fun me2 h => hl me2 (List.mem_cons_of_mem _ h)
    have hme : me.miner ∈ eligible := hl me (List.mem_cons_self _ _)
    rw [planLoop]
    by_cases hc : (match alistLookup cooldown me.miner.id with
        | some last => decide (now - last < presetChangeCooldown)
        | none => false) = true
    · rw [if_pos hc]; exact ih st hl2 hst
    · rw [if_neg hc]
      rcases hdt : determineTargetPreset me.miner st.delta ppm with e | pr
      · exact ih st hl2 hst
      · rcases pr with ⟨tp, tw⟩
        rcases tp with _ | t
        · exact ih st hl2 hst
        · dsimp only
          by_cases he : me.currentPreset = some t
          · rw [if_pos he]; exact ih st hl2 hst
          · rw [if_neg he]
            rcases determineTargetPreset_ok_inv _ _ _ _ hdt with ⟨mv, pm, hmv, hpm, _⟩
            rcases (determineTargetPreset_spec _ _ _ _ _ _ _ hmv hpm hdt).1 with
              ⟨q, hq, _⟩
            have hinv2 : ∀ pr ∈ alistInsert st.planned me.miner.id ⟨t, tw⟩,
                plannedOK eligible ppm pr := by
              intro pr hpr
              rcases mem_alistInsert hpr with h | h
              · exact hst pr h
              · rw [h]
                exact ⟨me.miner, hme, rfl, mv, pm, q, hmv, hpm, hq⟩
            have hgen : ∀ st2 : PlanState,
                st2.planned = alistInsert st.planned me.miner.id ⟨t, tw⟩ →
                ∀ pr ∈ (if |st2.delta| < 2000 then st2
                    else planLoop cooldown now ppm rest st2).planned,
                  plannedOK eligible ppm pr := by
              intro st2 hpl
              by_cases hδ : |st2.delta| < 2000
              · rw [if_pos hδ, hpl]; exact hinv2
              · rw [if_neg hδ]; exact ih st2 hl2 (hpl ▸ hinv2)
            rcases me.currentPower with _ | c <;>
              rcases tw with _ | twv <;>
              exact hgen _ rfl

/-- Every event `applyPresetChange` records carries the target preset it was
asked to set. -/
theorem applyPresetChange_newPreset (fwOk : String → String → Bool) (now : ℤ)
    (m : Miner) (op : Option String) (np : String) (opw npw : Option ℚ)
    (tcb tgt av : ℚ) (reason : String) :
    ∀ ev ∈ (applyPresetChange fwOk now m op np opw npw tcb tgt av reason).events,
      ev.minerId = m.id ∧ ev.newPreset = some np := by
  unfold applyPresetChange
  rcases m.ip with _ | ip
  · simp
  · rcases m.apiKey with _ | key
    · simp
    · by_cases hf : fwOk m.id np = true
      · simp [hf]
      · simp [hf]

/-- Every event of the application loop names a planned miner id and carries
that entry's target preset. -/
theorem applyLoop_events_plan (fwOk : String → String → Bool) (now : ℤ)
    (tp ap : ℚ) (planned : List (String × PlanEntry)) :
    ∀ (l : List MinerEfficiency) (st : ApplyState),
      (∀ ev ∈ st.events, ∃ entry, alistLookup planned ev.minerId = some entry ∧
        ev.newPreset = some entry.targetPreset) →
      ∀ ev ∈ (applyLoop fwOk now tp ap planned l st).events,
        ∃ entry, alistLookup planned ev.minerId = some entry ∧
          ev.newPreset = some entry.targetPreset := by
  intro l
  induction l with
  | nil => intro st hst; exact hst
  | cons me rest ih =>
    intro st hst
    rw [applyLoop]
    rcases hlk : alistLookup planned me.miner.id with _ | entry
    · exact ih st hst
    · dsimp only
      have hres := applyPresetChange_newPreset fwOk now me.miner me.currentPreset
        entry.targetPreset me.currentPower entry.targetPower st.current tp ap
        "automatic_balance"
      have h1' : ∀ ev ∈ st.events ++ (applyPresetChange fwOk now me.miner
          me.currentPreset entry.targetPreset me.currentPower entry.targetPower
          st.current tp ap "automatic_balance").events,
          ∃ e2, alistLookup planned ev.minerId = some e2 ∧
            ev.newPreset = some e2.targetPreset := by
        intro ev hev
        rcases List.mem_append.mp hev with h | h
        · exact hst ev h
        · rcases hres ev h with ⟨hid, hnp⟩
          exact ⟨entry, by rw [hid]; exact hlk, hnp⟩
      by_cases hok : (applyPresetChange fwOk now me.miner me.currentPreset
          entry.targetPreset me.currentPower entry.targetPower st.current tp ap
          "automatic_balance").ok = true
      · rw [if_pos hok]
        have hgen : ∀ st3 : ApplyState,
            st3.events = st.events ++ (applyPresetChange fwOk now me.miner
              me.currentPreset entry.targetPreset me.currentPower entry.targetPower
              st.current tp ap "automatic_balance").events →
            ∀ ev ∈ (if |st3.delta| < 2000 then st3
                else applyLoop fwOk now tp ap planned rest st3).events,
              ∃ e2, alistLookup planned ev.minerId = some e2 ∧
                ev.newPreset = some e2.targetPreset := by
          intro st3 he
          by_cases hδ : |st3.delta| < 2000
          · rw [if_pos hδ]
            rw [he]
            exact h1'
          · rw [if_neg hδ]
            exact ih st3 (he ▸ h1')
        rcases hcp : me.currentPower with _ | c <;>
          rcases htw : entry.targetPower with _ | tw <;>
          rw [hcp, htw] at hgen <;>
          exact hgen _ rfl
      · rw [if_neg hok]
        exact ih _ h1'

/-- Miners of the sorted efficiency list come from the ranked list. -/
theorem sorted_eff_mem (miners : List Miner) (ppm : PresetPowerMap) (b : Prop)
    [Decidable b] :
    ∀ me ∈ (if b then List.insertionSort effGE (calculateEfficiencies miners ppm)
        else List.insertionSort effLE (calculateEfficiencies miners ppm)),
      me.miner ∈ miners := by
  intro me hme
  have hme2 : me ∈ calculateEfficiencies miners ppm := by
    by_cases hb : b
    · rw [if_pos hb] at hme
      exact (List.perm_insertionSort _ _).mem_iff.mp hme
    · rw [if_neg hb] at hme
      exact (List.perm_insertionSort _ _).mem_iff.mp hme
  rcases List.mem_filterMap.mp hme2 with ⟨m0, hm0, heq⟩
  rw [minerEfficiencyOf_miner _ _ _ heq]
  exact hm0

/-- The wattage the balancer resolves for a preset of a model on a given
tick, via the tick's preset power map. -/
def resolvedWattage (inp : TickInput) (mv : Model) (p : String) : Option ℚ :=
  match alistLookup (loadPresetPowerMap inp.allPresets (filterOnlineMiners inp.miners))
      mv.aliasKey with
  | some pm => alistLookup pm p
  | none => none

/-- Claim C1 as stated: a successful event's new preset lies in the device's
model preset list and, when `max_preset` is set, its resolved wattage is at
most the resolved wattage of `max_preset`. -/
def ClaimC1 : Prop :=
  ∀ (inp : TickInput) (out : TickOutput), balance inp = .ok out →
    ∀ ev ∈ out.events, ev.success = true →
    ∀ m ∈ inp.miners, m.id = ev.minerId →
    ∀ mv, m.model = some mv →
    ∀ p, ev.newPreset = some p → p ∈ mv.presets ∧
      ∀ mp wp wm, mv.maxPreset = some mp →
        resolvedWattage inp mv p = some wp →
        resolvedWattage inp mv mp = some wm → wp ≤ wm

/-- C1 counterexample tick input: the two-preset-down reduction scenario with
`max_preset = "900"`. -/
def c1inp : TickInput := stepInput [] (c5td 1000)

/-- C1 counterexample tick output. -/
def c1out : TickOutput :=
  { targetW := 0, currentW := 3400,
    planned := [("aa", { targetPreset := "1300", targetPower := some 1300 })],
    expectedW := some 1300, events := [c5ev 1000], calls := [("aa", "1300")],
    cooldownOut := [("aa", 1000)], adjusted := 1 }

set_option maxHeartbeats 4000000 in
/-- C1: the claim is false.  With `max_preset = "900"`, a reduction tick
moves the miner from `"3400"` to `"1300"`, whose resolved wattage 1300
exceeds the resolved wattage 900 of `max_preset`: the reduce branch of
`determineTargetPreset` never consults `max_preset`. -/
theorem C1_counterexample : ¬ ClaimC1 := by
  intro h
  have hb : balance c1inp = .ok c1out := by
    norm_num +decide [balance, c1inp, c1out, stepInput, c5td, c5miner, c5model, c5rows,
      c5ev, planLoop, applyLoop, applyPresetChange,
      determineTargetPreset, findReduceTarget, findIncreaseTarget, calculateEfficiencies,
      minerEfficiencyOf, calculateCurrentConsumption, minerConsumption, loadPresetPowerMap,
      powerMapFromRows, powerMapFromValues, filterEligibleMiners, filterOnlineMiners,
      alistLookup, alistInsert, jsonParseNumber, isJsonSpace, isDigitChar, digitsToNat,
      digitVal, qPow10, applyExp10, presetChangeCooldown, List.insertionSort,
      List.orderedInsert, presetPowerLE, effLE, effGE, List.find?, List.filter,
      List.filterMap, List.foldl, List.takeWhile, List.dropWhile, String.ext_iff]
  have h2 := h c1inp c1out hb (c5ev 1000) (by simp [c1out]) rfl
    c5miner (by simp [c1inp, stepInput, c5td]) rfl c5model rfl "1300" rfl
  have h3 := h2.2 "900" 1300 900 rfl
    (by norm_num +decide [resolvedWattage, c1inp, stepInput, c5td, c5miner, c5model,
      c5rows, loadPresetPowerMap, powerMapFromRows, powerMapFromValues,
      filterOnlineMiners, alistLookup, alistInsert, List.find?, List.filter, List.foldl])
    (by norm_num +decide [resolvedWattage, c1inp, stepInput, c5td, c5miner, c5model,
      c5rows, loadPresetPowerMap, powerMapFromRows, powerMapFromValues,
      filterOnlineMiners, alistLookup, alistInsert, List.find?, List.filter, List.foldl])
  norm_num at h3

/-- C1 amended.  First part: every successful event of a tick targets an
eligible miner and sets a preset drawn from that miner's model's resolved
power map — membership is in the wattage map, not in the stored preset list.
Second part: the `max_preset` wattage cap holds on the increase path
(`delta ≥ 0`); the reduce path (refuted above) is not constrained by it. -/
theorem C1_amended :
    (∀ (inp : TickInput) (out : TickOutput), balance inp = .ok out →
      ∀ ev ∈ out.events, ev.success = true →
      ∃ m, m ∈ filterEligibleMiners inp.miners ∧ m.id = ev.minerId ∧
        ∃ mv pm p q, m.model = some mv ∧
          alistLookup (loadPresetPowerMap inp.allPresets (filterOnlineMiners inp.miners))
            mv.aliasKey = some pm ∧
          ev.newPreset = some p ∧ (p, q) ∈ pm) ∧
    (∀ (m : Miner) (delta : ℚ) (ppm : PresetPowerMap) (mv : Model) (pm : PowerMap)
      (tp : String) (w : Option ℚ),
      m.model = some mv → alistLookup ppm mv.aliasKey = some pm → ¬ delta < 0 →
      determineTargetPreset m delta ppm = .ok (some tp, w) →
      (∃ q, (tp, q) ∈ pm ∧ w = some q) ∧
      (∀ mp, mv.maxPreset = some mp → ∀ qm, (mp, qm) ∈ pm →
        ∀ qc, w = some qc → qc ≤ qm)) := by
  constructor
  · intro inp out hb ev hev _
    unfold balance at hb
    rcases hr : inp.reading with _ | r
    · rw [hr] at hb
      simp only [Except.ok.injEq] at hb
      subst hb
      simp at hev
    · rw [hr] at hb
      dsimp only at hb
      rcases hm : inp.marginSetting with _ | ms
      · rw [hm] at hb
        exact absurd hb (by simp)
      · rw [hm] at hb
        dsimp only at hb
        split at hb
        · simp only [Except.ok.injEq] at hb
          subst hb
          simp at hev
        · simp only [Except.ok.injEq] at hb
          subst hb
          dsimp only at hev
          rcases applyLoop_events_plan _ _ _ _ _ _ _
              (by intro ev2 hev2; simp at hev2) ev hev with ⟨entry, hlk2, hnp⟩
          have hmem := alistLookup_some_mem hlk2
          have hpl := planLoop_planned _ _ _ (filterEligibleMiners inp.miners) _ _
            (fun me hme => sorted_eff_mem _ _ _ me hme)
            (by intro pr hpr; simp at hpr) _ hmem
          rcases hpl with ⟨m, hmelig, hid, mv, pm, q, hmv, hpm, hq⟩
          exact ⟨m, hmelig, hid, mv, pm, entry.targetPreset, q, hmv, hpm, hnp, hq⟩
  · intro m delta ppm mv pm tp w hm hpm hd hdt
    have hs := determineTargetPreset_spec m delta ppm mv pm tp w hm hpm hdt
    exact ⟨hs.1, fun mp hmp qm hqm qc hqc => hs.2 hd mp hmp qm hqm qc hqc⟩

set_option maxHeartbeats 4000000 in
/-- C1 amended at concrete inputs: the reduction tick of the counterexample
for the first part, and the uncapped increase of the C2 scenario for the
second part. -/
theorem C1_witness :
    (∃ m, m ∈ filterEligibleMiners c1inp.miners ∧ m.id = (c5ev 1000).minerId ∧
      ∃ mv pm p q, m.model = some mv ∧
        alistLookup (loadPresetPowerMap c1inp.allPresets (filterOnlineMiners c1inp.miners))
          mv.aliasKey = some pm ∧
        (c5ev 1000).newPreset = some p ∧ (p, q) ∈ pm) ∧
    ((∃ q, ("1300", q) ∈ [("900", (900 : ℚ)), ("1300", 1300)] ∧
        (some 1300 : Option ℚ) = some q) ∧
      (∀ mp, c2model.maxPreset = some mp →
        ∀ qm, (mp, qm) ∈ [("900", (900 : ℚ)), ("1300", 1300)] →
          ∀ qc, (some 1300 : Option ℚ) = some qc → qc ≤ qm)) := by
  constructor
  · refine C1_amended.1 c1inp c1out ?_ (c5ev 1000) (by simp [c1out]) rfl
    norm_num +decide [balance, c1inp, c1out, stepInput, c5td, c5miner, c5model, c5rows,
      c5ev, planLoop, applyLoop, applyPresetChange,
      determineTargetPreset, findReduceTarget, findIncreaseTarget, calculateEfficiencies,
      minerEfficiencyOf, calculateCurrentConsumption, minerConsumption, loadPresetPowerMap,
      powerMapFromRows, powerMapFromValues, filterEligibleMiners, filterOnlineMiners,
      alistLookup, alistInsert, jsonParseNumber, isJsonSpace, isDigitChar, digitsToNat,
      digitVal, qPow10, applyExp10, presetChangeCooldown, List.insertionSort,
      List.orderedInsert, presetPowerLE, effLE, effGE, List.find?, List.filter,
      List.filterMap, List.foldl, List.takeWhile, List.dropWhile, String.ext_iff]
  · refine C1_amended.2 c2miner 3000 c2ppm c2model [("900", (900 : ℚ)), ("1300", 1300)]
      "1300" (some 1300) rfl rfl (by norm_num) ?_
    norm_num +decide [determineTargetPreset, c2miner, c2model, c2ppm, alistLookup,
      List.insertionSort, List.orderedInsert, presetPowerLE, findIncreaseTarget,
      List.find?]
